import Mathlib

/-! # Tracing functions of the J3 virtual machine (`lib/J3/VMCore/VirtualTables.cpp`)

A shallow embedding of the GC tracing functions of VMKit's J3.  The heap is an
explicit, read-only store of records addressed by natural numbers (`0` is the
null pointer).  Every tracer returns the ordered log of the calls it makes to
the collector (`markAndTraceRoot` / `markAndTrace`), or a fault when the C++
code would dereference an invalid pointer, fail an assertion, or when the
supplied loop budget is exhausted.  The object header accessors of `mvm/GC.h` and
`J3Cst::round` of `j3/j3constants.h` are embedded as well.
-/

namespace J3

/-- A machine address; `0` is the null pointer. -/
abbrev Ptr := Nat

/-- The address expressions that the tracers hand to the collector. -/
inductive Slot where
  /-- The class-loader-object slot of a loader, `loader->getJavaClassLoaderPtr()` -/
  | javaLoader (loader : Ptr)
  /-- The element slot `obj->elements + i` -/
  | element (obj : Ptr) (i : Nat)
  /-- The field slot `field.getObjectFieldPtr(obj)`: the object address plus the field offset -/
  | objectField (obj : Ptr) (ptrOffset : Nat)
  /-- The slot `delegatee + i` inside the class at address `cl` -/
  | delegatee (cl : Ptr) (i : Nat)
  /-- The slot `&bytes` inside the class at address `cl` -/
  | bytes (cl : Ptr)
  /-- The slot `end->strings + i` inside the string batch at address `list` -/
  | strings (list : Ptr) (i : Nat)
  /-- The slot `start->globalReferences + i` of the batch embedded in the VM (`&globalRefs`) -/
  | vmGlobalReferences (vm : Ptr) (i : Nat)
  /-- The slot `start->globalReferences + i` of a batch reached through `next` -/
  | globalReferences (batch : Ptr) (i : Nat)
  /-- The value slot `&(i->second)` of the entry of `hashStr` with the given key -/
  | hashStr (vm : Ptr) (key : Nat)
  /-- The slot `&pendingException` of a thread -/
  | pendingException (thread : Ptr)
  /-- The slot `&javaThread` of a thread -/
  | javaThread (thread : Ptr)
  /-- The slot `end->localReferences + i` of a local-reference batch -/
  | localReferences (batch : Ptr) (i : Nat)
  deriving DecidableEq, Repr

/-- Modelled from the spec: the collector reporting interface
(`mvm::Collector::markAndTraceRoot(slot)` and `mvm::Collector::markAndTrace(owner, slot)`,
declared in the absent `MvmGC.h`).  A call is recorded as one entry of the trace log:
`root slot` for "this slot holds a root reference", `edge owner slot` for "this slot,
reachable from object `owner`, holds a reference". -/
inductive Report where
  | root (slot : Slot)
  | edge (owner : Ptr) (slot : Slot)
  deriving DecidableEq, Repr

/-- Ways in which a tracer can fail to produce its log. -/
inductive Fault where
  /-- an `assert` of the source fails -/
  | assertion
  /-- a null or unmapped pointer is dereferenced -/
  | deref
  /-- the loop budget given to the model is exhausted -/
  | fuel
  deriving DecidableEq, Repr

/-- The result of running a tracer: its log of reports, or a fault. -/
abbrev Trace := Except Fault (List Report)

/-- The tracer entry of a dispatch table (`CommonVirtualTable::tracer`). -/
inductive TracerEntry where
  | EmptyTracer
  | emptyTracer
  | JavaObjectTracer
  | ArrayObjectTracer
  | JavaArrayTracer
  | RegularObjectTracer
  deriving DecidableEq, Repr

/-- A field descriptor (`JavaField`): whether its type is a reference, and its offset. -/
structure JavaField where
  isReference : Bool
  ptrOffset : Nat
  deriving DecidableEq, Repr

/-- Per-isolate class data (`TaskClassMirror`); only the static instance is read here. -/
structure TaskClassMirror where
  staticInstance : Ptr
  deriving DecidableEq, Repr

/-- Class metadata.  `CommonClass` and its subclass `Class` share one record:
`isClass` tells whether the record is a full `Class`, whose additional members are
`virtualFields`, `staticFields` and `IsolateInfo`.  Arrays with a count
(`interfaces`/`nbInterfaces`, ...) are lists. -/
structure CommonClass where
  super : Ptr
  interfaces : List Ptr
  classLoader : Ptr
  delegatee : Nat → Ptr
  isClass : Bool
  virtualFields : List JavaField
  staticFields : List JavaField
  IsolateInfo : Nat → TaskClassMirror

/-- A managed object.  `tracer` is the tracer entry of its dispatch table,
`getClass` the class pointer returned by `obj->getClass()`; `size` and `elements`
are the members of `ArrayObject` (a signed 32-bit count and the memory that follows). -/
structure JavaObject where
  tracer : TracerEntry
  getClass : Ptr
  size : Int
  elements : Nat → Ptr

/-- A batch of interned strings (`StringList`). -/
structure StringList where
  length : Nat
  prev : Ptr
  deriving DecidableEq, Repr

/-- A batch of JNI global references (`JNIGlobalReferences`). -/
structure JNIGlobalReferences where
  length : Nat
  next : Ptr
  deriving DecidableEq, Repr

/-- A batch of JNI local references (`JNILocalReferences`). -/
structure JNILocalReferences where
  length : Nat
  prev : Ptr
  deriving DecidableEq, Repr

/-- The primitive classes reached through `upcalls`. -/
structure Classpath where
  OfVoid : Ptr
  OfBool : Ptr
  OfByte : Ptr
  OfChar : Ptr
  OfShort : Ptr
  OfInt : Ptr
  OfFloat : Ptr
  OfLong : Ptr
  OfDouble : Ptr
  deriving DecidableEq, Repr

/-- A class loader (`JnjvmClassLoader`, and `JnjvmBootstrapLoader` for `upcalls`).
`javaLoader` is the content of the class-loader-object slot; `classes` lists the
class map in iteration order as (key, class pointer) pairs. -/
structure JnjvmClassLoader where
  javaLoader : Ptr
  bootstrapLoader : Ptr
  classes : List (Nat × Ptr)
  strings : Ptr
  upcalls : Classpath

/-- The virtual machine (`Jnjvm`).  `vmTracer` is the log of the inherited
`VirtualMachine::tracer()`, which is not part of this file; `hashStr` lists the
interned-string map in iteration order as (key, string pointer) pairs. -/
structure Jnjvm where
  vmTracer : List Report
  bootstrapLoader : Ptr
  appClassLoader : Ptr
  globalRefs : JNIGlobalReferences
  hashStr : List (Nat × Ptr)

/-- A thread record (`JavaThread`). -/
structure JavaThread where
  pendingException : Ptr
  javaThread : Ptr
  localJNIRefs : Ptr

/-- The store: which record lives at which address. -/
structure Heap where
  objects : Ptr → Option JavaObject
  classes : Ptr → Option CommonClass
  loaders : Ptr → Option JnjvmClassLoader
  stringLists : Ptr → Option StringList
  globalRefs : Ptr → Option JNIGlobalReferences
  localRefs : Ptr → Option JNILocalReferences
  vms : Ptr → Option Jnjvm
  threads : Ptr → Option JavaThread

/-- Dereference a pointer in one of the stores: null and unmapped addresses fault. -/
def deref {α : Type} (store : Ptr → Option α) (p : Ptr) : Except Fault α :=
  if p = 0 then .error .deref
  else match store p with
    | some a => .ok a
    | none => .error .deref

/-- The address of the class-loader-object member of a loader
(`JnjvmClassLoader::getJavaClassLoaderPtr`); calling it through a null loader faults. -/
def getJavaClassLoaderPtr (loader : Ptr) : Except Fault Slot :=
  if loader = 0 then .error .deref else .ok (Slot.javaLoader loader)

/-- The address of a field inside an object (`JavaField::getObjectFieldPtr`). -/
def JavaField.getObjectFieldPtr (field : JavaField) (obj : Ptr) : Slot :=
  Slot.objectField obj field.ptrOffset

/-- Run `body` on every element in order and concatenate the logs; stops at the
first fault.  This is the shape of every counted `for` loop of the tracers. -/
def forEach {α : Type} (body : α → Trace) : List α → Trace
  | [] => .ok []
  | a :: rest => do
    let out ← body a
    let outs ← forEach body rest
    pure (out ++ outs)

/-- The function `EmptyTracer(void*)`: the body is empty. -/
def EmptyTracer (_obj : Ptr) : Trace := .ok []

/-- The function `CommonVirtualTable::emptyTracer(void*)`: the body is empty. -/
def CommonVirtualTable.emptyTracer (_obj : Ptr) : Trace := .ok []

/-- The function `JavaObjectTracer(JavaObject* obj)`. -/
def JavaObjectTracer (h : Heap) (obj : Ptr) : Trace := do
  let o ← deref h.objects obj
  let cl := o.getClass
  if cl = 0 then throw Fault.assertion
  let c ← deref h.classes cl
  let slot ← getJavaClassLoaderPtr c.classLoader
  pure [Report.root slot]

/-- The element loop of `ArrayObjectTracer`: indices `0 ≤ i < size`, non-null elements only. -/
def ArrayObjectTracer.loop (obj : Ptr) (o : JavaObject) : List Report :=
  (List.range o.size.toNat).filterMap fun i =>
    if o.elements i ≠ 0 then some (Report.edge obj (Slot.element obj i)) else none

/-- The function `ArrayObjectTracer(ArrayObject* obj)`. -/
def ArrayObjectTracer (h : Heap) (obj : Ptr) : Trace := do
  let o ← deref h.objects obj
  let cl := o.getClass
  if cl = 0 then throw Fault.assertion
  let c ← deref h.classes cl
  let slot ← getJavaClassLoaderPtr c.classLoader
  pure (Report.root slot :: ArrayObjectTracer.loop obj o)

/-- The function `JavaArrayTracer(JavaArray* obj)`: the body is empty. -/
def JavaArrayTracer (_h : Heap) (_obj : Ptr) : Trace := .ok []

/-- The inner `for` loop of `RegularObjectTracer` at one class level. -/
def RegularObjectTracer.fields (obj : Ptr) (cl : CommonClass) : List Report :=
  cl.virtualFields.filterMap fun field =>
    if field.isReference then some (Report.edge obj (field.getObjectFieldPtr obj)) else none

/-- The `while (cl->super != 0)` loop of `RegularObjectTracer`, started at the class
at address `cl`; each evaluation of the loop condition consumes one unit of budget. -/
def RegularObjectTracer.loop (h : Heap) (obj : Ptr) : Nat → Ptr → Trace
  | 0, _ => .error .fuel
  | fuel + 1, cl => do
    let c ← deref h.classes cl
    if c.super ≠ 0 then
      let rest ← RegularObjectTracer.loop h obj fuel c.super
      pure (RegularObjectTracer.fields obj c ++ rest)
    else
      pure []

/-- The function `RegularObjectTracer(JavaObject* obj)`.  `asClass()` yields null for a record that
is not a full class, which the assertion rejects. -/
def RegularObjectTracer (h : Heap) (fuel : Nat) (obj : Ptr) : Trace := do
  let o ← deref h.objects obj
  let c0 ← deref h.classes o.getClass
  let cl := if c0.isClass then o.getClass else 0
  if cl = 0 then throw Fault.assertion
  let slot ← getJavaClassLoaderPtr c0.classLoader
  let rest ← RegularObjectTracer.loop h obj fuel cl
  pure (Report.root slot :: rest)

/-- The virtual call `obj->tracer()`: the tracer entry of the object's dispatch table. -/
def JavaObject.dispatch (h : Heap) (fuel : Nat) (obj : Ptr) : Trace := do
  let o ← deref h.objects obj
  match o.tracer with
  | .EmptyTracer => EmptyTracer obj
  | .emptyTracer => CommonVirtualTable.emptyTracer obj
  | .JavaObjectTracer => JavaObjectTracer h obj
  | .ArrayObjectTracer => ArrayObjectTracer h obj
  | .JavaArrayTracer => JavaArrayTracer h obj
  | .RegularObjectTracer => RegularObjectTracer h fuel obj

/-- One iteration of the interface loop of `CommonClass::tracer`: the loader slot of
`interfaces[i]` is reported when that loader is set and the slot holds a loader object. -/
def CommonClass.tracer.interface (h : Heap) (p : Ptr) : Trace := do
  let itf ← deref h.classes p
  if itf.classLoader ≠ 0 then
    let Obj ← getJavaClassLoaderPtr itf.classLoader
    let l ← deref h.loaders itf.classLoader
    if l.javaLoader ≠ 0 then pure [Report.root Obj] else pure []
  else
    pure []

/-- The block `if (super && super->classLoader) { ... }` of `CommonClass::tracer`:
the loader slot of the super class, then the interface loop. -/
def CommonClass.tracer.parents (h : Heap) (c : CommonClass) : Trace := do
  if c.super ≠ 0 then
    let s ← deref h.classes c.super
    if s.classLoader ≠ 0 then
      let Obj ← getJavaClassLoaderPtr s.classLoader
      let l ← deref h.loaders s.classLoader
      let sup := if l.javaLoader ≠ 0 then [Report.root Obj] else []
      let itfs ← forEach (CommonClass.tracer.interface h) c.interfaces
      pure (sup ++ itfs)
    else
      pure []
  else
    pure []

/-- The statement `if (classLoader) markAndTraceRoot(classLoader->getJavaClassLoaderPtr())`. -/
def CommonClass.tracer.own (c : CommonClass) : Trace := do
  if c.classLoader ≠ 0 then
    let slot ← getJavaClassLoaderPtr c.classLoader
    pure [Report.root slot]
  else
    pure []

/-- One iteration of the delegatee loop of `CommonClass::tracer`. -/
def CommonClass.tracer.delegatee (h : Heap) (fuel : Nat) (self : Ptr) (c : CommonClass)
    (i : Nat) : Trace := do
  if c.delegatee i ≠ 0 then
    let out ← JavaObject.dispatch h fuel (c.delegatee i)
    pure (out ++ [Report.root (Slot.delegatee self i)])
  else
    pure []

/-- The method `CommonClass::tracer()` on the class at address `self`. -/
def CommonClass.tracer (h : Heap) (NR_ISOLATES fuel : Nat) (self : Ptr) : Trace := do
  let c ← deref h.classes self
  let parents ← CommonClass.tracer.parents h c
  let own ← CommonClass.tracer.own c
  let delegatees ←
    forEach (CommonClass.tracer.delegatee h fuel self c) (List.range NR_ISOLATES)
  pure (parents ++ own ++ delegatees)

/-- The statement `if (classLoader != classLoader->bootstrapLoader) markAndTraceRoot(&bytes)`. -/
def Class.tracer.bytes (h : Heap) (self : Ptr) (c : CommonClass) : Trace := do
  let l ← deref h.loaders c.classLoader
  if c.classLoader ≠ l.bootstrapLoader then pure [Report.root (Slot.bytes self)] else pure []

/-- The inner loop of `Class::tracer` over the static fields, for one static instance. -/
def Class.tracer.staticFields (c : CommonClass) (staticInstance : Ptr) : List Report :=
  c.staticFields.filterMap fun field =>
    if field.isReference then some (Report.root (field.getObjectFieldPtr staticInstance))
    else none

/-- One iteration of the isolate loop of `Class::tracer`. -/
def Class.tracer.isolate (c : CommonClass) (i : Nat) : Trace :=
  let M := c.IsolateInfo i
  if M.staticInstance ≠ 0 then pure (Class.tracer.staticFields c M.staticInstance) else pure []

/-- The method `Class::tracer()` on the class at address `self`. -/
def Class.tracer (h : Heap) (NR_ISOLATES fuel : Nat) (self : Ptr) : Trace := do
  let common ← CommonClass.tracer h NR_ISOLATES fuel self
  let c ← deref h.classes self
  let bytes ← Class.tracer.bytes h self c
  let statics ← forEach (Class.tracer.isolate c) (List.range NR_ISOLATES)
  pure (common ++ bytes ++ statics)

/-- One iteration of the class-map loop of `JnjvmClassLoader::tracer`. -/
def JnjvmClassLoader.tracer.entry (h : Heap) (NR_ISOLATES fuel : Nat) (e : Nat × Ptr) :
    Trace := do
  let cl := e.2
  let c ← deref h.classes cl
  if c.isClass then Class.tracer h NR_ISOLATES fuel cl
  else CommonClass.tracer h NR_ISOLATES fuel cl

/-- The `while (end)` loop of `JnjvmClassLoader::tracer` over the string batches; each
evaluation of the loop condition consumes one unit of budget. -/
def JnjvmClassLoader.tracer.strings (h : Heap) : Nat → Ptr → Trace
  | 0, _ => .error .fuel
  | fuel + 1, en => do
    if en ≠ 0 then
      let b ← deref h.stringLists en
      let rest ← JnjvmClassLoader.tracer.strings h fuel b.prev
      pure ((List.range b.length).map (fun i => Report.root (Slot.strings en i)) ++ rest)
    else
      pure []

/-- The method `JnjvmClassLoader::tracer()` on the loader at address `self`. -/
def JnjvmClassLoader.tracer (h : Heap) (NR_ISOLATES fuel : Nat) (self : Ptr) : Trace := do
  let l ← deref h.loaders self
  let classes ← forEach (JnjvmClassLoader.tracer.entry h NR_ISOLATES fuel) l.classes
  let strings ← JnjvmClassLoader.tracer.strings h fuel l.strings
  pure (classes ++ strings)

/-- The nine primitive classes in the order of the `TRACE_DELEGATEE` lines. -/
def Classpath.primitives (u : Classpath) : List Ptr :=
  [u.OfVoid, u.OfBool, u.OfByte, u.OfChar, u.OfShort, u.OfInt, u.OfFloat, u.OfLong, u.OfDouble]

/-- The method `JnjvmBootstrapLoader::tracer()` on the loader at address `self`. -/
def JnjvmBootstrapLoader.tracer (h : Heap) (NR_ISOLATES fuel : Nat) (self : Ptr) : Trace := do
  let generic ← JnjvmClassLoader.tracer h NR_ISOLATES fuel self
  let l ← deref h.loaders self
  let prims ← forEach (CommonClass.tracer h NR_ISOLATES fuel) l.upcalls.primitives
  pure (generic ++ prims)

/-- The `while (start)` loop of `Jnjvm::tracer` continued at a batch reached through
`next`; each evaluation of the loop condition consumes one unit of budget. -/
def Jnjvm.tracer.globalRefs (h : Heap) : Nat → Ptr → Trace
  | 0, _ => .error .fuel
  | fuel + 1, start => do
    if start ≠ 0 then
      let b ← deref h.globalRefs start
      let rest ← Jnjvm.tracer.globalRefs h fuel b.next
      pure ((List.range b.length).map (fun i => Report.root (Slot.globalReferences start i))
        ++ rest)
    else
      pure []

/-- The statement
`if (appClassLoader) markAndTraceRoot(appClassLoader->getJavaClassLoaderPtr())`. -/
def Jnjvm.tracer.appLoader (vm : Jnjvm) : Trace := do
  if vm.appClassLoader ≠ 0 then
    let slot ← getJavaClassLoaderPtr vm.appClassLoader
    pure [Report.root slot]
  else
    pure []

/-- The method `Jnjvm::tracer()` on the virtual machine at address `self`, in a build
without `ISOLATE_SHARING` and `SERVICE`.  The walk of the global references starts at
the batch embedded in the VM (`&globalRefs`, never null). -/
def Jnjvm.tracer (h : Heap) (NR_ISOLATES fuel : Nat) (self : Ptr) : Trace := do
  let vm ← deref h.vms self
  let boot ← JnjvmBootstrapLoader.tracer h NR_ISOLATES fuel vm.bootstrapLoader
  let app ← Jnjvm.tracer.appLoader vm
  let first :=
    (List.range vm.globalRefs.length).map fun i => Report.root (Slot.vmGlobalReferences self i)
  let rest ← Jnjvm.tracer.globalRefs h fuel vm.globalRefs.next
  let strs := vm.hashStr.map fun e => Report.root (Slot.hashStr self e.1)
  pure (vm.vmTracer ++ boot ++ app ++ first ++ rest ++ strs)

/-- The `while (end)` loop of `JavaThread::tracer` over the local-reference batches; each
evaluation of the loop condition consumes one unit of budget. -/
def JavaThread.tracer.localRefs (h : Heap) : Nat → Ptr → Trace
  | 0, _ => .error .fuel
  | fuel + 1, en => do
    if en ≠ 0 then
      let b ← deref h.localRefs en
      let rest ← JavaThread.tracer.localRefs h fuel b.prev
      pure ((List.range b.length).map (fun i => Report.root (Slot.localReferences en i))
        ++ rest)
    else
      pure []

/-- The method `JavaThread::tracer()` on the thread at address `self`, in a build
without `SERVICE`. -/
def JavaThread.tracer (h : Heap) (fuel : Nat) (self : Ptr) : Trace := do
  let t ← deref h.threads self
  let pending :=
    if t.pendingException ≠ 0 then [Report.root (Slot.pendingException self)] else []
  let rest ← JavaThread.tracer.localRefs h fuel t.localJNIRefs
  pure (pending ++ Report.root (Slot.javaThread self) :: rest)

/-- The predicate `SuperChain h p cs`: following `super` from the class at address `p`
visits exactly the classes `cs` (mapped, non-null addresses) and stops at the root,
the only class of the chain without a super class. -/
def SuperChain (h : Heap) : Ptr → List CommonClass → Prop
  | _, [] => False
  | p, [c] => p ≠ 0 ∧ h.classes p = some c ∧ c.super = 0
  | p, c :: c' :: cs =>
    p ≠ 0 ∧ h.classes p = some c ∧ c.super ≠ 0 ∧ SuperChain h c.super (c' :: cs)

/-- The predicate `BatchChain store link p bs`: following `link` from the batch at
address `p` visits exactly the batches `bs` (with their addresses, all mapped and
non-null) and then reaches the null pointer. -/
def BatchChain {α : Type} (store : Ptr → Option α) (link : α → Ptr) :
    Ptr → List (Ptr × α) → Prop
  | p, [] => p = 0
  | p, (q, b) :: rest => p = q ∧ p ≠ 0 ∧ store p = some b ∧ BatchChain store link (link b) rest

/-- Whether a report is an edge report. -/
def Report.isEdge : Report → Bool
  | .edge _ _ => true
  | .root _ => false

/-- The edge reports of the reference-flagged fields of one class level, in
declaration order. -/
def referenceFieldEdges (obj : Ptr) (c : CommonClass) : List Report :=
  (c.virtualFields.filter fun f => f.isReference).map fun f =>
    Report.edge obj (Slot.objectField obj f.ptrOffset)

/-- A root report of the class-loader-object slot of some non-null loader. -/
def LoaderRoot (r : Report) : Prop := ∃ l : Ptr, l ≠ 0 ∧ r = Report.root (Slot.javaLoader l)

/-- The reports an object tracer can make: loader roots and edges. -/
def ObjectReport (r : Report) : Prop := LoaderRoot r ∨ r.isEdge = true

/-- The reports `CommonClass::tracer` can make on the class at `self`: those of an
object tracer, and roots of the delegatee slots of `self`. -/
def ClassReport (self : Ptr) (r : Report) : Prop :=
  ObjectReport r ∨ ∃ i : Nat, r = Report.root (Slot.delegatee self i)

/-- The own-loader report of a class: the root report of its loader slot when the
loader is set, nothing otherwise. -/
def ownLoaderRoot (c : CommonClass) : List Report :=
  if c.classLoader ≠ 0 then [Report.root (Slot.javaLoader c.classLoader)] else []

/-- The report due to one declared interface: the root report of its loader slot when
the interface's loader is set and that slot holds a loader object, nothing otherwise. -/
def interfaceLoaderRoot (h : Heap) (p : Ptr) : List Report :=
  match h.classes p with
  | none => []
  | some itf =>
    if itf.classLoader ≠ 0 then
      match h.loaders itf.classLoader with
      | none => []
      | some l =>
        if l.javaLoader ≠ 0 then [Report.root (Slot.javaLoader itf.classLoader)] else []
    else []

/-- The slot named by a report. -/
def Report.slot : Report → Slot
  | .root s => s
  | .edge _ s => s

/-- The static-field reports of a full class `c` with `N` isolation contexts: for each
context in increasing order that has a static instance, the root report of the slot of
every reference-flagged static field, in declaration order, inside that instance. -/
def staticFieldRoots (c : CommonClass) (N : Nat) : List Report :=
  (List.range N).flatMap fun i =>
    if (c.IsolateInfo i).staticInstance ≠ 0 then
      (c.staticFields.filter fun f => f.isReference).map fun f =>
        Report.root (Slot.objectField (c.IsolateInfo i).staticInstance f.ptrOffset)
    else []

/-- The root reports of a list of batches (address and record): batches in list order,
and within a batch the slots `mk addr 0, ..., mk addr (len b - 1)` in index order. -/
def batchRoots {α : Type} (len : α → Nat) (mk : Ptr → Nat → Slot) (bs : List (Ptr × α)) :
    List Report :=
  bs.flatMap fun e => (List.range (len e.2)).map fun i => Report.root (mk e.1 i)

/-- The whole global-reference walk of `Jnjvm::tracer`
(`start = &globalRefs; while (start) { ...; start = start->next; }`): the slots of the
batch embedded in the VM, then the batches reached through `next`. -/
def Jnjvm.tracer.globalWalk (h : Heap) (fuel : Nat) (self : Ptr) (vm : Jnjvm) : Trace := do
  let rest ← Jnjvm.tracer.globalRefs h fuel vm.globalRefs.next
  pure ((List.range vm.globalRefs.length).map
    (fun i => Report.root (Slot.vmGlobalReferences self i)) ++ rest)

/-- The memory of a `gcRoot` object (`mvm/GC.h`) as machine words counted from the
address of the object.  The accessors below use word 0, `((VirtualTable**)(this))[0]`;
the data member `header` is a separate word that follows it. -/
structure gcRoot where
  words : Nat → Nat

/-- The member `header` of a `gcRoot`: the word after the first word of the object. -/
def gcRoot.header (o : gcRoot) : Nat := o.words 1

/-- The method `gcRoot::getVirtualTable() const`: reads word 0 of the object. -/
def gcRoot.getVirtualTable (o : gcRoot) : Ptr := o.words 0

/-- The method `gcRoot::setVirtualTable(VirtualTable* VT)`: writes word 0 of the object. -/
def gcRoot.setVirtualTable (o : gcRoot) (VT : Ptr) : gcRoot :=
  { words := fun i => if i = 0 then VT else o.words i }

/-- The function `J3Cst::round(uint32_t value, uint32_t bound)`, that is
`((value - 1) & (-bound)) + bound` in unsigned 32-bit arithmetic: the subtraction, the
negation and the addition are taken modulo `2^32`. -/
def J3Cst.round (value bound : Nat) : Nat :=
  ((((value + 2 ^ 32 - 1) % 2 ^ 32) &&& ((2 ^ 32 - bound) % 2 ^ 32)) + bound) % 2 ^ 32

/-! ## A concrete heap used to exercise the statements

Loader `4` is the bootstrap loader (no class-loader object), loaders `5` and `7` are
application loaders.  Class `12` is the root class, `11` extends it, `10` extends `11`,
`13` is an array class.  Object `1` is a regular instance of `10`, object `2` a
reference array, object `3` a native array, object `6` a plain instance of `12`.
Classes `20` to `27` exercise the class tracers, `27` to `35` are the primitive classes
of the bootstrap loader, whose class map holds the classes `20`, `22` and `23` and
whose string chain is `60, 61`.  The virtual machine lives at `100`.  Loaders `8` and
`9` hold only the scenario class `Foo` (`40`, respectively `42`), loader `10` is a fresh
bootstrap loader, loader `11` holds a full class, an array class and a primitive class;
the threads live at `200` and `201`.  The virtual machines at `101` and `102` have the
bootstrap loaders `12` and `13`, which hold only the class `26`, respectively `25`. -/

/-- An empty set of primitive classes (application loaders do not use `upcalls`). -/
def demoUpcalls : Classpath := ⟨0, 0, 0, 0, 0, 0, 0, 0, 0⟩

/-- The primitive classes of the bootstrap loader, at the addresses `27` to `35`. -/
def demoBootUpcalls : Classpath := ⟨27, 28, 29, 30, 31, 32, 33, 34, 35⟩

/-- The root class of the demo heap; it declares one reference field. -/
def demoRoot : CommonClass :=
  { super := 0, interfaces := [], classLoader := 4, delegatee := fun _ => 0, isClass := true,
    virtualFields := [⟨true, 40⟩], staticFields := [], IsolateInfo := fun _ => ⟨0⟩ }

/-- The middle class of the demo heap. -/
def demoMid : CommonClass :=
  { super := 12, interfaces := [], classLoader := 4, delegatee := fun _ => 0, isClass := true,
    virtualFields := [⟨false, 4⟩, ⟨true, 32⟩], staticFields := [], IsolateInfo := fun _ => ⟨0⟩ }

/-- The most derived class of the demo heap. -/
def demoLeaf : CommonClass :=
  { super := 11, interfaces := [], classLoader := 5, delegatee := fun _ => 0, isClass := true,
    virtualFields := [⟨true, 8⟩, ⟨false, 16⟩, ⟨true, 24⟩], staticFields := [],
    IsolateInfo := fun _ => ⟨0⟩ }

/-- The array class of the demo heap. -/
def demoArrayClass : CommonClass :=
  { super := 12, interfaces := [], classLoader := 5, delegatee := fun _ => 0, isClass := false,
    virtualFields := [], staticFields := [], IsolateInfo := fun _ => ⟨0⟩ }

/-- A regular instance of `demoLeaf`. -/
def demoRegular : JavaObject :=
  { tracer := .RegularObjectTracer, getClass := 10, size := 0, elements := fun _ => 0 }

/-- A reference array of size 4 with elements `7, null, 1, null`; the memory behind the
array holds a non-null word at index 5. -/
def demoRefArray : JavaObject :=
  { tracer := .ArrayObjectTracer, getClass := 13, size := 4,
    elements := fun i => if i = 0 then 7 else if i = 2 then 1 else if i = 5 then 9 else 0 }

/-- A native array of size 3 with non-zero contents. -/
def demoNativeArray : JavaObject :=
  { tracer := .JavaArrayTracer, getClass := 13, size := 3, elements := fun _ => 255 }

/-- A plain instance of the root class. -/
def demoPlain : JavaObject :=
  { tracer := .JavaObjectTracer, getClass := 12, size := 0, elements := fun _ => 0 }

/-- A root class loaded by the bootstrap loader `4`, with a static reference field. -/
def demoObjectClass : CommonClass :=
  { super := 0, interfaces := [], classLoader := 4, delegatee := fun _ => 0, isClass := true,
    virtualFields := [], staticFields := [⟨true, 16⟩], IsolateInfo := fun _ => ⟨0⟩ }

/-- An interface loaded by the application loader `5`. -/
def demoItfApp : CommonClass :=
  { super := 20, interfaces := [], classLoader := 5, delegatee := fun _ => 0, isClass := true,
    virtualFields := [], staticFields := [], IsolateInfo := fun _ => ⟨0⟩ }

/-- An interface loaded by the bootstrap loader `4`, whose loader slot is empty. -/
def demoItfBoot : CommonClass :=
  { super := 20, interfaces := [], classLoader := 4, delegatee := fun _ => 0, isClass := true,
    virtualFields := [], staticFields := [], IsolateInfo := fun _ => ⟨0⟩ }

/-- A class loaded by loader `7` whose super class `24` was loaded by loader `5`; it
implements both interfaces, has a delegatee (the object at `1`) in isolate 1 only, and
a static instance in isolate 0 only. -/
def demoClassA : CommonClass :=
  { super := 24, interfaces := [21, 22], classLoader := 7,
    delegatee := fun i => if i = 1 then 1 else 0, isClass := true,
    virtualFields := [], staticFields := [⟨true, 8⟩, ⟨false, 12⟩, ⟨true, 16⟩],
    IsolateInfo := fun i => if i = 0 then ⟨30⟩ else ⟨0⟩ }

/-- A class loaded by the application loader `5`, extending the root class `20`. -/
def demoClassB : CommonClass :=
  { super := 20, interfaces := [], classLoader := 5, delegatee := fun _ => 0, isClass := true,
    virtualFields := [], staticFields := [], IsolateInfo := fun _ => ⟨0⟩ }

/-- A class record without super class that declares the interface `21`. -/
def demoNoSuper : CommonClass :=
  { super := 0, interfaces := [21], classLoader := 7, delegatee := fun _ => 0,
    isClass := true, virtualFields := [], staticFields := [], IsolateInfo := fun _ => ⟨0⟩ }

/-- A class loaded by loader `7` that extends the bootstrap class `20` and implements
both interfaces. -/
def demoClassC : CommonClass :=
  { super := 20, interfaces := [21, 22], classLoader := 7, delegatee := fun _ => 0,
    isClass := true, virtualFields := [], staticFields := [], IsolateInfo := fun _ => ⟨0⟩ }

/-- A primitive pseudo-class: no loader, no super class, a delegatee (the plain object
at `6`) in isolate 0. -/
def demoPrimitive : CommonClass :=
  { super := 0, interfaces := [], classLoader := 0,
    delegatee := fun i => if i = 0 then 6 else 0, isClass := false,
    virtualFields := [], staticFields := [], IsolateInfo := fun _ => ⟨0⟩ }

/-- A primitive pseudo-class without delegatee. -/
def demoPrimitiveBare : CommonClass :=
  { super := 0, interfaces := [], classLoader := 0, delegatee := fun _ => 0, isClass := false,
    virtualFields := [], staticFields := [], IsolateInfo := fun _ => ⟨0⟩ }

/-- The virtual machine of the demo heap: bootstrap loader `4`, application loader `7`,
an embedded batch of two global references followed by the batch at `70`, and two
interned strings. -/
def demoVM : Jnjvm :=
  { vmTracer := [], bootstrapLoader := 4, appClassLoader := 7, globalRefs := ⟨2, 70⟩,
    hashStr := [(5, 90), (9, 91)] }

/-- The class `Foo` of the scenario: no super class, no interfaces, no delegatee, a
static instance (the object at `41`, in isolate 0) and one static field, flagged as a reference.  It
is loaded by loader `8`, which is not a bootstrap loader. -/
def demoFoo : CommonClass :=
  { super := 0, interfaces := [], classLoader := 8, delegatee := fun _ => 0, isClass := true,
    virtualFields := [], staticFields := [⟨true, 8⟩],
    IsolateInfo := fun i => if i = 0 then ⟨41⟩ else ⟨0⟩ }

/-- The class `Foo` of the scenario, loaded by the bootstrap loader `9`. -/
def demoFooBoot : CommonClass :=
  { super := 0, interfaces := [], classLoader := 9, delegatee := fun _ => 0, isClass := true,
    virtualFields := [], staticFields := [⟨true, 8⟩],
    IsolateInfo := fun i => if i = 0 then ⟨43⟩ else ⟨0⟩ }

/-- A thread without pending exception and with a null thread delegate, whose
local-reference chain is `80, 81, 82`. -/
def demoThread : JavaThread := { pendingException := 0, javaThread := 0, localJNIRefs := 80 }

/-- A thread with a pending exception and no local references. -/
def demoThreadPending : JavaThread :=
  { pendingException := 95, javaThread := 96, localJNIRefs := 0 }

/-- Primitive classes without delegatees: all nine are the class at `28`. -/
def demoBareUpcalls : Classpath := ⟨28, 28, 28, 28, 28, 28, 28, 28, 28⟩

/-- A virtual machine whose bootstrap loader `12` holds only the class `26`. -/
def demoVMSuper : Jnjvm :=
  { vmTracer := [], bootstrapLoader := 12, appClassLoader := 0, globalRefs := ⟨0, 0⟩,
    hashStr := [] }

/-- A virtual machine whose bootstrap loader `13` holds only the class `25`. -/
def demoVMNoSuper : Jnjvm :=
  { vmTracer := [], bootstrapLoader := 13, appClassLoader := 0, globalRefs := ⟨0, 0⟩,
    hashStr := [] }

/-- The demo heap. -/
def demoHeap : Heap :=
  { objects := fun p =>
      if p = 1 then some demoRegular else if p = 2 then some demoRefArray
      else if p = 3 then some demoNativeArray else if p = 6 then some demoPlain else none
    classes := fun p =>
      if p = 10 then some demoLeaf else if p = 11 then some demoMid
      else if p = 12 then some demoRoot else if p = 13 then some demoArrayClass
      else if p = 20 then some demoObjectClass else if p = 21 then some demoItfApp
      else if p = 22 then some demoItfBoot else if p = 23 then some demoClassA
      else if p = 24 then some demoClassB else if p = 25 then some demoNoSuper
      else if p = 26 then some demoClassC else if p = 27 then some demoPrimitive
      else if 28 ≤ p ∧ p ≤ 35 then some demoPrimitiveBare
      else if p = 40 then some demoFoo else if p = 42 then some demoFooBoot else none
    loaders := fun p =>
      if p = 4 then some ⟨0, 4, [(1, 20), (2, 22), (3, 23)], 60, demoBootUpcalls⟩
      else if p = 5 then some ⟨50, 4, [], 0, demoUpcalls⟩
      else if p = 7 then some ⟨70, 4, [], 0, demoUpcalls⟩
      else if p = 8 then some ⟨85, 4, [(1, 40)], 0, demoUpcalls⟩
      else if p = 9 then some ⟨0, 9, [(1, 42)], 0, demoBootUpcalls⟩
      else if p = 10 then some ⟨0, 10, [], 0, demoBootUpcalls⟩
      else if p = 11 then some ⟨0, 4, [(1, 24), (2, 13), (3, 27)], 61, demoUpcalls⟩
      else if p = 12 then some ⟨0, 12, [(1, 26)], 0, demoBareUpcalls⟩
      else if p = 13 then some ⟨0, 13, [(1, 25)], 0, demoBareUpcalls⟩ else none
    stringLists := fun p =>
      if p = 60 then some ⟨2, 61⟩ else if p = 61 then some ⟨1, 0⟩ else none
    globalRefs := fun p => if p = 70 then some ⟨1, 0⟩ else none
    localRefs := fun p =>
      if p = 80 then some ⟨2, 81⟩ else if p = 81 then some ⟨0, 82⟩
      else if p = 82 then some ⟨1, 0⟩ else none
    vms := fun p =>
      if p = 100 then some demoVM else if p = 101 then some demoVMSuper
      else if p = 102 then some demoVMNoSuper else none
    threads := fun p =>
      if p = 200 then some demoThread else if p = 201 then some demoThreadPending else none }

/-! ## Auxiliary lemmas -/

@[simp] theorem bind_ok {α β : Type} (a : α) (f : α → Except Fault β) :
    (Except.ok a >>= f) = f a := rfl

@[simp] theorem bind_error {α β : Type} (e : Fault) (f : α → Except Fault β) :
    (Except.error e >>= f) = Except.error e := rfl

@[simp] theorem pure_eq_ok {α : Type} (a : α) : (pure a : Except Fault α) = Except.ok a := rfl

@[simp] theorem throw_eq_error {α : Type} (e : Fault) :
    (throw e : Except Fault α) = Except.error e := rfl

theorem deref_eq_ok {α : Type} {store : Ptr → Option α} {p : Ptr} {a : α}
    (hp : p ≠ 0) (hs : store p = some a) : deref store p = .ok a := by
  simp [deref, hp, hs]

theorem getJavaClassLoaderPtr_eq_ok {l : Ptr} (hl : l ≠ 0) :
    getJavaClassLoaderPtr l = .ok (Slot.javaLoader l) := by
  simp [getJavaClassLoaderPtr, hl]

theorem filterMap_if {α β : Type} (p : α → Prop) [DecidablePred p] (f : α → β)
    (l : List α) :
    (l.filterMap fun a => if p a then some (f a) else none)
      = (l.filter fun a => decide (p a)).map f := by
  induction l with
  | nil => rfl
  | cons a l ih =>
    by_cases ha : p a
    · rw [List.filterMap_cons, List.filter_cons]
      simp only [ha, if_true, decide_True, List.map_cons, ih]
    · rw [List.filterMap_cons, List.filter_cons]
      simp only [ha, if_false, decide_False, ih]
      rfl

theorem fields_eq (obj : Ptr) (c : CommonClass) :
    RegularObjectTracer.fields obj c = referenceFieldEdges obj c := by
  unfold RegularObjectTracer.fields referenceFieldEdges JavaField.getObjectFieldPtr
  generalize c.virtualFields = fs
  induction fs with
  | nil => rfl
  | cons f fs ih =>
    by_cases hf : f.isReference = true
    · simp [List.filterMap_cons, List.filter_cons, hf, ih]
    · simp [List.filterMap_cons, List.filter_cons, hf, ih]

theorem loop_of_chain (h : Heap) (obj : Ptr) :
    ∀ (cs : List CommonClass) (c : CommonClass) (p fuel : Nat),
      SuperChain h p (c :: cs) → cs.length < fuel →
      RegularObjectTracer.loop h obj fuel p =
        .ok ((c :: cs).dropLast.flatMap (referenceFieldEdges obj)) := by
  intro cs
  induction cs with
  | nil =>
    intro c p fuel hch hf
    obtain ⟨hp, hc, hs⟩ := hch
    cases fuel with
    | zero => simp at hf
    | succ n => simp [RegularObjectTracer.loop, deref_eq_ok hp hc, hs]
  | cons c' cs ih =>
    intro c p fuel hch hf
    obtain ⟨hp, hc, hs, hrest⟩ := hch
    cases fuel with
    | zero => simp at hf
    | succ n =>
      have hn : cs.length < n := by simpa using hf
      simp [RegularObjectTracer.loop, deref_eq_ok hp hc, hs, ih c' c.super n hrest hn,
        fields_eq, List.dropLast]

theorem bind_eq_ok_iff {α β : Type} {x : Except Fault α} {f : α → Except Fault β} {b : β} :
    (x >>= f) = .ok b ↔ ∃ a, x = .ok a ∧ f a = .ok b := by
  cases x with
  | error e => simp
  | ok a => simp

theorem forEach_eq_ok {α : Type} {body : α → Trace} (f : α → List Report) :
    ∀ l : List α, (∀ a ∈ l, body a = .ok (f a)) → forEach body l = .ok (l.flatMap f) := by
  intro l
  induction l with
  | nil => intro _; rfl
  | cons a l ih =>
    intro hb
    have ha := hb a (List.mem_cons_self a l)
    have hl := ih fun b hb' => hb b (List.mem_cons_of_mem a hb')
    simp [forEach, ha, hl]

theorem forEach_reports {α : Type} {body : α → Trace} (P : Report → Prop) :
    ∀ (l : List α) (outs : List Report),
      (∀ a ∈ l, ∀ out, body a = .ok out → ∀ r ∈ out, P r) →
      forEach body l = .ok outs → ∀ r ∈ outs, P r := by
  intro l
  induction l with
  | nil =>
    intro outs _ hrun r hr
    simp [forEach] at hrun
    subst hrun
    simp at hr
  | cons a l ih =>
    intro outs hb hrun r hr
    simp only [forEach, bind_eq_ok_iff, pure_eq_ok, Except.ok.injEq] at hrun
    obtain ⟨out, hout, rest, hrest, rfl⟩ := hrun
    rcases List.mem_append.mp hr with hr | hr
    · exact hb a (List.mem_cons_self a l) out hout r hr
    · exact ih rest (fun b hb' => hb b (List.mem_cons_of_mem a hb')) hrest r hr

theorem getJavaClassLoaderPtr_ok_iff {l : Ptr} {s : Slot} :
    getJavaClassLoaderPtr l = .ok s ↔ l ≠ 0 ∧ s = Slot.javaLoader l := by
  unfold getJavaClassLoaderPtr
  by_cases hl : l = 0
  · simp [hl]
  · simp [hl, eq_comm]

theorem loop_reports (h : Heap) (obj : Ptr) :
    ∀ (fuel : Nat) (p : Ptr) (out : List Report),
      RegularObjectTracer.loop h obj fuel p = .ok out → ∀ r ∈ out, r.isEdge = true := by
  intro fuel
  induction fuel with
  | zero => intro p out hrun; simp [RegularObjectTracer.loop] at hrun
  | succ n ih =>
    intro p out hrun r hr
    simp only [RegularObjectTracer.loop, bind_eq_ok_iff] at hrun
    obtain ⟨c, _, hrun⟩ := hrun
    by_cases hs : c.super = 0
    · simp [hs] at hrun
      subst hrun
      simp at hr
    · simp only [hs, ne_eq, not_false_eq_true, if_true, bind_eq_ok_iff, pure_eq_ok,
        Except.ok.injEq] at hrun
      obtain ⟨rest, hrest, rfl⟩ := hrun
      rcases List.mem_append.mp hr with hr | hr
      · rw [fields_eq] at hr
        simp only [referenceFieldEdges, List.mem_map] at hr
        obtain ⟨f, _, rfl⟩ := hr
        rfl
      · exact ih c.super rest hrest r hr

theorem dispatch_reports (h : Heap) (fuel : Nat) (obj : Ptr) (out : List Report)
    (hrun : JavaObject.dispatch h fuel obj = .ok out) : ∀ r ∈ out, ObjectReport r := by
  intro r hr
  simp only [JavaObject.dispatch, bind_eq_ok_iff] at hrun
  obtain ⟨o, _, hrun⟩ := hrun
  cases ht : o.tracer <;> rw [ht] at hrun
  · simp [EmptyTracer] at hrun; subst hrun; simp at hr
  · simp [CommonVirtualTable.emptyTracer] at hrun; subst hrun; simp at hr
  · simp only [JavaObjectTracer, bind_eq_ok_iff] at hrun
    obtain ⟨o', _, hrun⟩ := hrun
    by_cases hcl : o'.getClass = 0
    · simp [hcl] at hrun
    · simp only [hcl, if_false, bind_eq_ok_iff, pure_eq_ok, Except.ok.injEq] at hrun
      obtain ⟨_, _, c, _, slot, hslot, rfl⟩ := hrun
      obtain ⟨hl, rfl⟩ := getJavaClassLoaderPtr_ok_iff.mp hslot
      simp only [List.mem_singleton] at hr
      exact Or.inl ⟨_, hl, hr⟩
  · simp only [ArrayObjectTracer, bind_eq_ok_iff] at hrun
    obtain ⟨o', _, hrun⟩ := hrun
    by_cases hcl : o'.getClass = 0
    · simp [hcl] at hrun
    · simp only [hcl, if_false, bind_eq_ok_iff, pure_eq_ok, Except.ok.injEq] at hrun
      obtain ⟨_, _, c, _, slot, hslot, rfl⟩ := hrun
      obtain ⟨hl, rfl⟩ := getJavaClassLoaderPtr_ok_iff.mp hslot
      rcases List.mem_cons.mp hr with hr | hr
      · exact Or.inl ⟨_, hl, hr⟩
      · right
        simp only [ArrayObjectTracer.loop, List.mem_filterMap] at hr
        obtain ⟨i, _, hi⟩ := hr
        by_cases he : o'.elements i = 0
        · simp [he] at hi
        · simp [he] at hi; subst hi; rfl
  · simp [JavaArrayTracer] at hrun; subst hrun; simp at hr
  · simp only [RegularObjectTracer, bind_eq_ok_iff] at hrun
    obtain ⟨o', _, c0, _, hrun⟩ := hrun
    by_cases hcl : (if c0.isClass = true then o'.getClass else 0) = 0
    · simp [hcl] at hrun
    · simp only [hcl, if_false, bind_eq_ok_iff, pure_eq_ok, Except.ok.injEq] at hrun
      obtain ⟨_, _, slot, hslot, rest, hrest, rfl⟩ := hrun
      obtain ⟨hl, rfl⟩ := getJavaClassLoaderPtr_ok_iff.mp hslot
      rcases List.mem_cons.mp hr with hr | hr
      · exact Or.inl ⟨_, hl, hr⟩
      · exact Or.inr (loop_reports h obj fuel _ rest hrest r hr)

theorem own_eq (c : CommonClass) : CommonClass.tracer.own c = .ok (ownLoaderRoot c) := by
  unfold CommonClass.tracer.own ownLoaderRoot
  by_cases hl : c.classLoader = 0
  · simp [hl]
  · simp [hl, getJavaClassLoaderPtr_eq_ok hl]

theorem interface_eq (h : Heap) (p : Ptr) (itf : CommonClass) (hp : p ≠ 0)
    (hitf : h.classes p = some itf)
    (hl : itf.classLoader ≠ 0 → ∃ l, h.loaders itf.classLoader = some l) :
    CommonClass.tracer.interface h p = .ok (interfaceLoaderRoot h p) := by
  unfold CommonClass.tracer.interface interfaceLoaderRoot
  by_cases hcl : itf.classLoader = 0
  · simp [deref_eq_ok hp hitf, hitf, hcl]
  · obtain ⟨l, hld⟩ := hl hcl
    by_cases hj : l.javaLoader = 0
    · simp [deref_eq_ok hp hitf, hitf, hcl, hld, deref_eq_ok hcl hld,
        getJavaClassLoaderPtr_eq_ok hcl, hj]
    · simp [deref_eq_ok hp hitf, hitf, hcl, hld, deref_eq_ok hcl hld,
        getJavaClassLoaderPtr_eq_ok hcl, hj]

theorem interface_reports (h : Heap) (p : Ptr) (out : List Report)
    (hrun : CommonClass.tracer.interface h p = .ok out) : ∀ r ∈ out, LoaderRoot r := by
  intro r hr
  simp only [CommonClass.tracer.interface, bind_eq_ok_iff] at hrun
  obtain ⟨itf, _, hrun⟩ := hrun
  by_cases hcl : itf.classLoader = 0
  · simp [hcl] at hrun; subst hrun; simp at hr
  · simp only [hcl, ne_eq, not_false_eq_true, if_true, bind_eq_ok_iff] at hrun
    obtain ⟨slot, hslot, l, _, hrun⟩ := hrun
    obtain ⟨hl, rfl⟩ := getJavaClassLoaderPtr_ok_iff.mp hslot
    by_cases hj : l.javaLoader = 0
    · simp [hj] at hrun; subst hrun; simp at hr
    · simp [hj] at hrun; subst hrun
      simp only [List.mem_singleton] at hr
      exact ⟨_, hl, hr⟩

theorem parents_reports (h : Heap) (c : CommonClass) (out : List Report)
    (hrun : CommonClass.tracer.parents h c = .ok out) : ∀ r ∈ out, LoaderRoot r := by
  intro r hr
  unfold CommonClass.tracer.parents at hrun
  by_cases hs : c.super = 0
  · simp [hs] at hrun; subst hrun; simp at hr
  · simp only [hs, ne_eq, not_false_eq_true, if_true, bind_eq_ok_iff] at hrun
    obtain ⟨s, _, hrun⟩ := hrun
    by_cases hcl : s.classLoader = 0
    · simp [hcl] at hrun; subst hrun; simp at hr
    · simp only [hcl, ne_eq, not_false_eq_true, if_true, bind_eq_ok_iff, pure_eq_ok,
        Except.ok.injEq] at hrun
      obtain ⟨slot, hslot, l, _, itfs, hitfs, rfl⟩ := hrun
      obtain ⟨hl, rfl⟩ := getJavaClassLoaderPtr_ok_iff.mp hslot
      rcases List.mem_append.mp hr with hr | hr
      · by_cases hj : l.javaLoader = 0
        · simp [hj] at hr
        · simp [hj] at hr
          exact ⟨_, hl, hr⟩
      · exact forEach_reports LoaderRoot c.interfaces itfs
          (fun p _ out hout => interface_reports h p out hout) hitfs r hr

theorem delegatees_reports (h : Heap) (fuel : Nat) (self : Ptr) (c : CommonClass)
    (l : List Nat) (d : List Report)
    (hrun : forEach (CommonClass.tracer.delegatee h fuel self c) l = .ok d) :
    ∀ r ∈ d, ClassReport self r := by
  refine forEach_reports (ClassReport self) l d ?_ hrun
  intro i _ out hout r hr
  unfold CommonClass.tracer.delegatee at hout
  by_cases hd : c.delegatee i = 0
  · simp [hd] at hout; subst hout; simp at hr
  · simp only [hd, ne_eq, not_false_eq_true, if_true, bind_eq_ok_iff, pure_eq_ok,
      Except.ok.injEq] at hout
    obtain ⟨o, ho, rfl⟩ := hout
    rcases List.mem_append.mp hr with hr | hr
    · exact Or.inl (dispatch_reports h fuel _ o ho r hr)
    · simp only [List.mem_singleton] at hr
      exact Or.inr ⟨i, hr⟩

theorem delegatees_eq (h : Heap) (N fuel : Nat) (self : Ptr) (c : CommonClass)
    (d : Nat → List Report)
    (hd : ∀ i, i < N → c.delegatee i ≠ 0 →
      JavaObject.dispatch h fuel (c.delegatee i) = .ok (d i)) :
    forEach (CommonClass.tracer.delegatee h fuel self c) (List.range N) =
      .ok ((List.range N).flatMap fun i =>
        if c.delegatee i ≠ 0 then d i ++ [Report.root (Slot.delegatee self i)] else []) := by
  apply forEach_eq_ok
  intro i hi
  unfold CommonClass.tracer.delegatee
  by_cases hz : c.delegatee i = 0
  · simp [hz]
  · simp [hz, hd i (List.mem_range.mp hi) hz]

theorem tracer_eq (h : Heap) (N fuel : Nat) (self : Ptr) (c : CommonClass)
    (a d : List Report) (hself : self ≠ 0) (hc : h.classes self = some c)
    (ha : CommonClass.tracer.parents h c = .ok a)
    (hd : forEach (CommonClass.tracer.delegatee h fuel self c) (List.range N) = .ok d) :
    CommonClass.tracer h N fuel self = .ok (a ++ ownLoaderRoot c ++ d) := by
  simp [CommonClass.tracer, deref_eq_ok hself hc, ha, own_eq, hd]

theorem tracer_reports (h : Heap) (N fuel : Nat) (self : Ptr) (out : List Report)
    (hrun : CommonClass.tracer h N fuel self = .ok out) : ∀ r ∈ out, ClassReport self r := by
  intro r hr
  simp only [CommonClass.tracer, bind_eq_ok_iff, pure_eq_ok, Except.ok.injEq] at hrun
  obtain ⟨c, _, a, ha, o, ho, d, hd, rfl⟩ := hrun
  rw [own_eq] at ho
  simp only [Except.ok.injEq] at ho
  subst ho
  rcases List.mem_append.mp hr with hr | hr
  · rcases List.mem_append.mp hr with hr | hr
    · exact Or.inl (Or.inl (parents_reports h c a ha r hr))
    · unfold ownLoaderRoot at hr
      by_cases hl : c.classLoader = 0
      · simp [hl] at hr
      · simp [hl] at hr
        exact Or.inl (Or.inl ⟨_, hl, hr⟩)
  · exact delegatees_reports h fuel self c _ d hd r hr

theorem statics_eq (c : CommonClass) (N : Nat) :
    forEach (Class.tracer.isolate c) (List.range N) =
      .ok ((List.range N).flatMap fun i =>
        if (c.IsolateInfo i).staticInstance ≠ 0 then
          Class.tracer.staticFields c (c.IsolateInfo i).staticInstance
        else []) := by
  apply forEach_eq_ok
  intro i _
  unfold Class.tracer.isolate
  by_cases hz : (c.IsolateInfo i).staticInstance = 0
  · simp [hz]
  · simp [hz]

theorem strings_of_chain (h : Heap) :
    ∀ (bs : List (Ptr × StringList)) (p fuel : Nat),
      BatchChain h.stringLists StringList.prev p bs → bs.length < fuel →
      JnjvmClassLoader.tracer.strings h fuel p =
        .ok (bs.flatMap fun e =>
          (List.range e.2.length).map fun i => Report.root (Slot.strings e.1 i)) := by
  intro bs
  induction bs with
  | nil =>
    intro p fuel hch hf
    cases fuel with
    | zero => simp at hf
    | succ n =>
      have hp : p = 0 := hch
      simp [JnjvmClassLoader.tracer.strings, hp]
  | cons e bs ih =>
    intro p fuel hch hf
    obtain ⟨q, b⟩ := e
    obtain ⟨rfl, hp, hb, hrest⟩ := hch
    cases fuel with
    | zero => simp at hf
    | succ n =>
      have hn : bs.length < n := by simpa using hf
      simp [JnjvmClassLoader.tracer.strings, hp, deref_eq_ok hp hb, ih b.prev n hrest hn]

theorem globalRefs_of_chain (h : Heap) :
    ∀ (bs : List (Ptr × JNIGlobalReferences)) (p fuel : Nat),
      BatchChain h.globalRefs JNIGlobalReferences.next p bs → bs.length < fuel →
      Jnjvm.tracer.globalRefs h fuel p =
        .ok (bs.flatMap fun e =>
          (List.range e.2.length).map fun i => Report.root (Slot.globalReferences e.1 i)) := by
  intro bs
  induction bs with
  | nil =>
    intro p fuel hch hf
    cases fuel with
    | zero => simp at hf
    | succ n =>
      have hp : p = 0 := hch
      simp [Jnjvm.tracer.globalRefs, hp]
  | cons e bs ih =>
    intro p fuel hch hf
    obtain ⟨q, b⟩ := e
    obtain ⟨rfl, hp, hb, hrest⟩ := hch
    cases fuel with
    | zero => simp at hf
    | succ n =>
      have hn : bs.length < n := by simpa using hf
      simp [Jnjvm.tracer.globalRefs, hp, deref_eq_ok hp hb, ih b.next n hrest hn]

theorem staticFields_eq (c : CommonClass) (N : Nat) :
    ((List.range N).flatMap fun i =>
      if (c.IsolateInfo i).staticInstance ≠ 0 then
        Class.tracer.staticFields c (c.IsolateInfo i).staticInstance
      else []) = staticFieldRoots c N := by
  have hst : ∀ inst, Class.tracer.staticFields c inst =
      (c.staticFields.filter fun f => f.isReference).map fun f =>
        Report.root (Slot.objectField inst f.ptrOffset) := by
    intro inst
    unfold Class.tracer.staticFields JavaField.getObjectFieldPtr
    simpa using filterMap_if (fun f : JavaField => f.isReference = true)
      (fun f => Report.root (Slot.objectField inst f.ptrOffset)) c.staticFields
  simp only [staticFieldRoots, hst]

theorem class_tracer_eq (h : Heap) (N fuel : Nat) (self : Ptr) (c : CommonClass)
    (l : JnjvmClassLoader) (common : List Report)
    (hself : self ≠ 0) (hc : h.classes self = some c)
    (hcl : c.classLoader ≠ 0) (hl : h.loaders c.classLoader = some l)
    (hcommon : CommonClass.tracer h N fuel self = .ok common) :
    Class.tracer h N fuel self =
      .ok (common ++
        (if c.classLoader ≠ l.bootstrapLoader then [Report.root (Slot.bytes self)] else [])
        ++ staticFieldRoots c N) := by
  simp only [Class.tracer, hcommon, deref_eq_ok hself hc, Class.tracer.bytes,
    deref_eq_ok hcl hl, statics_eq, staticFields_eq, bind_ok, pure_eq_ok]
  by_cases hb : c.classLoader = l.bootstrapLoader
  · simp [hb]
  · simp [hb]

theorem flatMap_const_nil {α β : Type} (l : List α) :
    (l.flatMap fun _ => ([] : List β)) = [] := by
  induction l with
  | nil => rfl
  | cons a l ih => simp [ih]

theorem strings_empty (h : Heap) (fuel : Nat) (hfuel : 0 < fuel) :
    JnjvmClassLoader.tracer.strings h fuel 0 = .ok [] := by
  simpa using strings_of_chain h [] 0 fuel rfl (by simpa using hfuel)

theorem localRefs_of_chain (h : Heap) :
    ∀ (bs : List (Ptr × JNILocalReferences)) (p fuel : Nat),
      BatchChain h.localRefs JNILocalReferences.prev p bs → bs.length < fuel →
      JavaThread.tracer.localRefs h fuel p =
        .ok (bs.flatMap fun e =>
          (List.range e.2.length).map fun i => Report.root (Slot.localReferences e.1 i)) := by
  intro bs
  induction bs with
  | nil =>
    intro p fuel hch hf
    cases fuel with
    | zero => simp at hf
    | succ n =>
      have hp : p = 0 := hch
      simp [JavaThread.tracer.localRefs, hp]
  | cons e bs ih =>
    intro p fuel hch hf
    obtain ⟨q, b⟩ := e
    obtain ⟨rfl, hp, hb, hrest⟩ := hch
    cases fuel with
    | zero => simp at hf
    | succ n =>
      have hn : bs.length < n := by simpa using hf
      simp [JavaThread.tracer.localRefs, hp, deref_eq_ok hp hb, ih b.prev n hrest hn]

theorem batchChain_unique {α : Type} (store : Ptr → Option α) (link : α → Ptr) :
    ∀ (bs bs' : List (Ptr × α)) (p : Ptr),
      BatchChain store link p bs → BatchChain store link p bs' → bs = bs' := by
  intro bs
  induction bs with
  | nil =>
    intro bs' p hch hch'
    cases bs' with
    | nil => rfl
    | cons e bs' =>
      obtain ⟨q, b⟩ := e
      have hp : p = 0 := hch
      exact absurd hp hch'.2.1
  | cons e bs ih =>
    intro bs' p hch hch'
    obtain ⟨q, b⟩ := e
    obtain ⟨hq, hp, hb, hrest⟩ := hch
    cases bs' with
    | nil =>
      have hp' : p = 0 := hch'
      exact absurd hp' hp
    | cons e' bs' =>
      obtain ⟨q', b'⟩ := e'
      obtain ⟨hq', _, hb', hrest'⟩ := hch'
      have hbb : b = b' := by
        rw [hb] at hb'
        exact Option.some.inj hb'
      subst hbb
      have hqq : q = q' := hq.symm.trans hq'
      subst hqq
      rw [ih bs' (link b) hrest hrest']

theorem batchChain_tail {α : Type} (store : Ptr → Option α) (link : α → Ptr) :
    ∀ (bs : List (Ptr × α)) (p q : Ptr),
      BatchChain store link p bs → q ∈ bs.map Prod.fst →
      ∃ suf : List (Ptr × α), BatchChain store link q suf ∧ 0 < suf.length ∧
        suf.length ≤ bs.length := by
  intro bs
  induction bs with
  | nil => intro p q _ hq; simp at hq
  | cons e bs ih =>
    intro p q hch hq
    obtain ⟨q', b⟩ := e
    have hch' := hch
    obtain ⟨hpq, _, _, hrest⟩ := hch
    rcases List.mem_cons.mp hq with hq | hq
    · have hqp : q = p := hq.trans hpq.symm
      subst hqp
      exact ⟨(q', b) :: bs, hch', by simp, le_refl _⟩
    · obtain ⟨suf, hsuf, hpos, hle⟩ := ih (link b) q hrest hq
      exact ⟨suf, hsuf, hpos, by simpa using Nat.le_succ_of_le hle⟩

theorem batchChain_nodup {α : Type} (store : Ptr → Option α) (link : α → Ptr) :
    ∀ (bs : List (Ptr × α)) (p : Ptr),
      BatchChain store link p bs → (bs.map Prod.fst).Nodup := by
  intro bs
  induction bs with
  | nil => intro _ _; simp
  | cons e bs ih =>
    intro p hch
    obtain ⟨q, b⟩ := e
    have hch' := hch
    obtain ⟨hpq, _, _, hrest⟩ := hch
    subst hpq
    rw [List.map_cons, List.nodup_cons]
    refine ⟨?_, ih (link b) hrest⟩
    intro hmem
    obtain ⟨suf, hsuf, _, hle⟩ := batchChain_tail store link bs (link b) p hrest hmem
    have := batchChain_unique store link _ _ p hch' hsuf
    rw [← this] at hle
    simp at hle

theorem batchRoots_length {α : Type} (len : α → Nat) (mk : Ptr → Nat → Slot) :
    ∀ bs : List (Ptr × α),
      (batchRoots len mk bs).length = (bs.map fun e => len e.2).sum := by
  intro bs
  induction bs with
  | nil => rfl
  | cons e bs ih =>
    have ih' : (bs.flatMap fun e =>
        (List.range (len e.2)).map fun i => Report.root (mk e.1 i)).length =
        (bs.map fun e => len e.2).sum := ih
    simp [batchRoots, ih']

theorem batchRoots_mem {α : Type} (len : α → Nat) (mk : Ptr → Nat → Slot)
    (bs : List (Ptr × α)) (r : Report) :
    r ∈ batchRoots len mk bs ↔
      ∃ e ∈ bs, ∃ i, i < len e.2 ∧ r = Report.root (mk e.1 i) := by
  simp only [batchRoots, List.mem_flatMap, List.mem_map, List.mem_range]
  constructor
  · rintro ⟨e, he, i, hi, rfl⟩
    exact ⟨e, he, i, hi, rfl⟩
  · rintro ⟨e, he, i, hi, rfl⟩
    exact ⟨e, he, i, hi, rfl⟩

theorem batchRoots_nodup {α : Type} (len : α → Nat) (mk : Ptr → Nat → Slot)
    (hmk : ∀ p i p' i', mk p i = mk p' i' → p = p' ∧ i = i') :
    ∀ bs : List (Ptr × α), (bs.map Prod.fst).Nodup → (batchRoots len mk bs).Nodup := by
  intro bs
  induction bs with
  | nil => intro _; simp [batchRoots]
  | cons e bs ih =>
    intro hnd
    rw [List.map_cons, List.nodup_cons] at hnd
    have hsplit : batchRoots len mk (e :: bs) =
        ((List.range (len e.2)).map fun i => Report.root (mk e.1 i)) ++ batchRoots len mk bs := by
      simp [batchRoots]
    rw [hsplit]
    refine List.Nodup.append ?_ (ih hnd.2) ?_
    · refine List.Nodup.map ?_ (List.nodup_range _)
      intro i j hij
      simp only [Report.root.injEq] at hij
      exact (hmk _ _ _ _ hij).2
    · intro r hr hr'
      obtain ⟨i, _, rfl⟩ := List.mem_map.mp hr
      obtain ⟨e', he', j, _, heq⟩ := (batchRoots_mem len mk bs _).mp hr'
      simp only [Report.root.injEq] at heq
      have h1 : e.1 = e'.1 := (hmk _ _ _ _ heq).1
      exact hnd.1 (h1 ▸ List.mem_map_of_mem Prod.fst he')

theorem strings_reports (h : Heap) :
    ∀ (fuel : Nat) (p : Ptr) (out : List Report),
      JnjvmClassLoader.tracer.strings h fuel p = .ok out →
      ∀ r ∈ out, ∃ b i, r = Report.root (Slot.strings b i) := by
  intro fuel
  induction fuel with
  | zero => intro p out hrun; simp [JnjvmClassLoader.tracer.strings] at hrun
  | succ n ih =>
    intro p out hrun r hr
    unfold JnjvmClassLoader.tracer.strings at hrun
    by_cases hp : p = 0
    · simp [hp] at hrun
      subst hrun
      simp at hr
    · simp only [hp, ne_eq, not_false_eq_true, if_true, bind_eq_ok_iff, pure_eq_ok,
        Except.ok.injEq] at hrun
      obtain ⟨b, _, rest, hrest, rfl⟩ := hrun
      rcases List.mem_append.mp hr with hr | hr
      · obtain ⟨i, _, rfl⟩ := List.mem_map.mp hr
        exact ⟨p, i, rfl⟩
      · exact ih b.prev rest hrest r hr

theorem class_tracer_reports (h : Heap) (N fuel : Nat) (cl : Ptr) (out : List Report)
    (hrun : Class.tracer h N fuel cl = .ok out) :
    ∀ r ∈ out, ClassReport cl r ∨ r = Report.root (Slot.bytes cl) ∨
      ∃ inst off, r = Report.root (Slot.objectField inst off) := by
  intro r hr
  simp only [Class.tracer, bind_eq_ok_iff, pure_eq_ok, Except.ok.injEq] at hrun
  obtain ⟨common, hcommon, c, _, bytes, hbytes, statics, hstatics, rfl⟩ := hrun
  rcases List.mem_append.mp hr with hr | hr
  · rcases List.mem_append.mp hr with hr | hr
    · exact Or.inl (tracer_reports h N fuel cl common hcommon r hr)
    · simp only [Class.tracer.bytes, bind_eq_ok_iff] at hbytes
      obtain ⟨l, _, hbytes⟩ := hbytes
      by_cases hb : c.classLoader = l.bootstrapLoader
      · simp [hb] at hbytes
        subst hbytes
        simp at hr
      · simp [hb] at hbytes
        subst hbytes
        simp only [List.mem_singleton] at hr
        exact Or.inr (Or.inl hr)
  · rw [statics_eq, staticFields_eq] at hstatics
    simp only [Except.ok.injEq] at hstatics
    subst hstatics
    obtain ⟨i, _, hr⟩ := List.mem_flatMap.mp hr
    by_cases hz : (c.IsolateInfo i).staticInstance = 0
    · simp [hz] at hr
    · simp only [hz, ne_eq, not_false_eq_true, if_true, List.mem_map] at hr
      obtain ⟨f, _, rfl⟩ := hr
      exact Or.inr (Or.inr ⟨_, _, rfl⟩)

theorem classReport_not_bytes (cl x : Ptr) (r : Report) (hr : ClassReport cl r) :
    r ≠ Report.root (Slot.bytes x) ∧
      ∀ inst off, r ≠ Report.root (Slot.objectField inst off) := by
  rcases hr with (⟨l, _, rfl⟩ | hedge) | ⟨i, rfl⟩
  · exact ⟨by simp, fun _ _ => by simp⟩
  · refine ⟨?_, fun _ _ => ?_⟩ <;>
    · intro heq
      subst heq
      simp [Report.isEdge] at hedge
  · exact ⟨by simp, fun _ _ => by simp⟩

theorem loop_short_of_chain (h : Heap) (obj : Ptr) :
    ∀ (cs : List CommonClass) (c : CommonClass) (p fuel : Nat),
      SuperChain h p (c :: cs) → fuel ≤ cs.length →
      RegularObjectTracer.loop h obj fuel p = .error .fuel := by
  intro cs
  induction cs with
  | nil =>
    intro c p fuel _ hf
    have hz : fuel = 0 := by simpa using hf
    subst hz
    rfl
  | cons c' cs ih =>
    intro c p fuel hch hf
    obtain ⟨hp, hc, hs, hrest⟩ := hch
    cases fuel with
    | zero => rfl
    | succ n =>
      have hn : n ≤ cs.length := by simpa using hf
      simp [RegularObjectTracer.loop, deref_eq_ok hp hc, hs, ih c' c.super n hrest hn]

theorem and_mask (x k : Nat) (hx : x < 2 ^ 32) (hk : k ≤ 32) :
    x &&& (2 ^ 32 - 2 ^ k) = 2 ^ k * (x / 2 ^ k) := by
  apply Nat.eq_of_testBit_eq
  intro i
  have hmask : (2 ^ 32 - 2 ^ k).testBit i = (decide (i < 32) && !decide (i < k)) := by
    have h1 : 2 ^ k - 1 < 2 ^ 32 := by
      have : 2 ^ k ≤ 2 ^ 32 := Nat.pow_le_pow_right (by decide) hk
      have : 0 < 2 ^ k := Nat.two_pow_pos k
      omega
    have h2 := Nat.testBit_two_pow_sub_succ h1 i
    have h3 : 2 ^ k - 1 + 1 = 2 ^ k := by
      have : 0 < 2 ^ k := Nat.two_pow_pos k
      omega
    rw [h3] at h2
    rw [h2, Nat.testBit_two_pow_sub_one]
  rw [Nat.testBit_and, hmask, Nat.testBit_mul_pow_two, ← Nat.shiftRight_eq_div_pow,
    Nat.testBit_shiftRight]
  by_cases hik : i < k
  · have : ¬ (i ≥ k) := by omega
    simp [hik, this]
  · have hge : i ≥ k := by omega
    have hadd : k + (i - k) = i := by omega
    by_cases hi : i < 32
    · simp [hik, hge, hi, hadd]
    · have hxi : x.testBit i = false := by
        apply Nat.testBit_lt_two_pow
        exact Nat.lt_of_lt_of_le hx (Nat.pow_le_pow_right (by decide) (by omega))
      simp [hik, hge, hi, hadd, hxi]

theorem round_closed (v k : Nat) (hk : k ≤ 31) :
    J3Cst.round v (2 ^ k) = (2 ^ k * (((v + 2 ^ 32 - 1) % 2 ^ 32) / 2 ^ k) + 2 ^ k) % 2 ^ 32 := by
  have hb : 0 < 2 ^ k := Nat.two_pow_pos k
  have hle : 2 ^ k ≤ 2 ^ 31 := Nat.pow_le_pow_right (by decide) hk
  have hmask : (2 ^ 32 - 2 ^ k) % 2 ^ 32 = 2 ^ 32 - 2 ^ k := by
    apply Nat.mod_eq_of_lt
    omega
  unfold J3Cst.round
  rw [hmask, and_mask _ k (Nat.mod_lt _ (by decide)) (by omega)]

theorem ceil_core (b q x : Nat) (hb : 0 < b) (hx : x < b * q) :
    b * (x / b) + b ≤ b * q ∧ b * (x / b) ≤ x ∧ x < b * (x / b) + b := by
  have h1 : b * (x / b) ≤ x := Nat.mul_div_le x b
  have h2 : x < b * (x / b) + b := by
    have := Nat.lt_mul_div_succ x hb
    rw [Nat.mul_add, Nat.mul_one] at this
    exact this
  refine ⟨?_, h1, h2⟩
  have h3 : x / b < q := by
    apply Nat.div_lt_of_lt_mul
    exact hx
  have h4 : b * (x / b + 1) ≤ b * q := Nat.mul_le_mul_left b h3
  rw [Nat.mul_add, Nat.mul_one] at h4
  exact h4

theorem round_core (k v : Nat) (hk : k ≤ 31) (hv : v < 2 ^ 32) :
    (v ≤ 2 ^ 32 - 2 ^ k →
      2 ^ k ∣ J3Cst.round v (2 ^ k) ∧ v ≤ J3Cst.round v (2 ^ k) ∧
      J3Cst.round v (2 ^ k) ≤ 2 ^ 32 - 2 ^ k ∧
      ∀ m, 2 ^ k ∣ m → v ≤ m → J3Cst.round v (2 ^ k) ≤ m) ∧
    (2 ^ 32 - 2 ^ k < v → J3Cst.round v (2 ^ k) = 0) := by
  have hb : 0 < 2 ^ k := Nat.two_pow_pos k
  have hM : (2 : Nat) ^ 32 = 2 ^ k * 2 ^ (32 - k) := by
    rw [← Nat.pow_add]
    congr 1
    omega
  have hq : 2 ≤ 2 ^ (32 - k) := by
    calc 2 = 2 ^ 1 := rfl
      _ ≤ 2 ^ (32 - k) := Nat.pow_le_pow_right (by decide) (by omega)
  rw [round_closed v k hk]
  generalize hbdef : 2 ^ k = b at *
  generalize hqdef : 2 ^ (32 - k) = q at *
  generalize hMdef : (2 : Nat) ^ 32 = M at *
  have hbq : b ≤ M := by
    rw [hM]
    exact Nat.le_mul_of_pos_right b (by omega)
  by_cases hv0 : v = 0
  · subst hv0
    have hx : (0 + M - 1) % M = M - 1 := by
      rw [Nat.zero_add]
      exact Nat.mod_eq_of_lt (by omega)
    rw [hx]
    obtain ⟨h1, h2, h3⟩ := ceil_core b q (M - 1) hb (by omega)
    have hval : b * ((M - 1) / b) + b = M := by omega
    rw [hval, Nat.mod_self]
    refine ⟨fun _ => ⟨Nat.dvd_zero b, Nat.le_refl 0, Nat.zero_le _, fun m _ _ => Nat.zero_le m⟩,
      fun _ => rfl⟩
  · have hx : (v + M - 1) % M = v - 1 := by
      have : v + M - 1 = (v - 1) + M := by omega
      rw [this, Nat.add_mod_right]
      exact Nat.mod_eq_of_lt (by omega)
    rw [hx]
    constructor
    · intro hle
      have hq1 : b * (q - 1) = M - b := by
        rw [Nat.mul_sub, Nat.mul_one, ← hM]
      obtain ⟨h1, h2, h3⟩ := ceil_core b (q - 1) (v - 1) hb (by omega)
      have hlt : b * ((v - 1) / b) + b < M := by omega
      rw [Nat.mod_eq_of_lt hlt]
      refine ⟨⟨(v - 1) / b + 1, by rw [Nat.mul_add, Nat.mul_one]⟩, by omega, by omega, ?_⟩
      intro m hm hvm
      obtain ⟨j, rfl⟩ := hm
      have hlt' : b * ((v - 1) / b) < b * j := by omega
      have hj : (v - 1) / b < j := Nat.lt_of_mul_lt_mul_left hlt'
      have := Nat.mul_le_mul_left b (Nat.succ_le_of_lt hj)
      rw [Nat.mul_succ] at this
      exact this
    · intro hgt
      obtain ⟨h1, h2, h3⟩ := ceil_core b q (v - 1) hb (by omega)
      have hgt' : b * (q - 1) < b * ((v - 1) / b + 1) := by
        rw [Nat.mul_sub, Nat.mul_one, ← hM, Nat.mul_add, Nat.mul_one]
        omega
      have hj : q - 1 < (v - 1) / b + 1 := Nat.lt_of_mul_lt_mul_left hgt'
      have hge : b * q ≤ b * ((v - 1) / b + 1) := Nat.mul_le_mul_left b (by omega)
      rw [Nat.mul_add, Nat.mul_one] at hge
      have hval : b * ((v - 1) / b) + b = M := by omega
      rw [hval, Nat.mod_self]

theorem tracer_globalWalk (h : Heap) (N fuel : Nat) (self : Ptr) :
    Jnjvm.tracer h N fuel self = (do
      let vm ← deref h.vms self
      let boot ← JnjvmBootstrapLoader.tracer h N fuel vm.bootstrapLoader
      let app ← Jnjvm.tracer.appLoader vm
      let walk ← Jnjvm.tracer.globalWalk h fuel self vm
      pure (vm.vmTracer ++ boot ++ app ++ walk ++
        (vm.hashStr.map fun e => Report.root (Slot.hashStr self e.1)))) := by
  unfold Jnjvm.tracer Jnjvm.tracer.globalWalk
  cases deref h.vms self with
  | error e => rfl
  | ok vm =>
    simp only [bind_ok]
    cases JnjvmBootstrapLoader.tracer h N fuel vm.bootstrapLoader with
    | error e => rfl
    | ok boot =>
      simp only [bind_ok]
      cases Jnjvm.tracer.appLoader vm with
      | error e => rfl
      | ok app =>
        simp only [bind_ok]
        cases Jnjvm.tracer.globalRefs h fuel vm.globalRefs.next with
        | error e => rfl
        | ok rest => simp

theorem forEach_mem_inv {α : Type} {body : α → Trace} :
    ∀ (l : List α) (outs : List Report), forEach body l = .ok outs →
      ∀ r ∈ outs, ∃ a ∈ l, ∃ out, body a = .ok out ∧ r ∈ out := by
  intro l
  induction l with
  | nil =>
    intro outs hrun r hr
    simp [forEach] at hrun
    subst hrun
    simp at hr
  | cons b l ih =>
    intro outs hrun r hr
    simp only [forEach, bind_eq_ok_iff, pure_eq_ok, Except.ok.injEq] at hrun
    obtain ⟨out, hout, rest, hrest, rfl⟩ := hrun
    rcases List.mem_append.mp hr with hr | hr
    · exact ⟨b, List.mem_cons_self b l, out, hout, hr⟩
    · obtain ⟨a, ha, o, ho, hro⟩ := ih rest hrest r hr
      exact ⟨a, List.mem_cons_of_mem b ha, o, ho, hro⟩

theorem loop_edge_slots (h : Heap) (obj : Ptr) :
    ∀ (fuel : Nat) (p : Ptr) (out : List Report),
      RegularObjectTracer.loop h obj fuel p = .ok out →
      ∀ r ∈ out, ∃ off, r = Report.edge obj (Slot.objectField obj off) := by
  intro fuel
  induction fuel with
  | zero => intro p out hrun; simp [RegularObjectTracer.loop] at hrun
  | succ n ih =>
    intro p out hrun r hr
    simp only [RegularObjectTracer.loop, bind_eq_ok_iff] at hrun
    obtain ⟨c, _, hrun⟩ := hrun
    by_cases hs : c.super = 0
    · simp [hs] at hrun
      subst hrun
      simp at hr
    · simp only [hs, ne_eq, not_false_eq_true, if_true, bind_eq_ok_iff, pure_eq_ok,
        Except.ok.injEq] at hrun
      obtain ⟨rest, hrest, rfl⟩ := hrun
      rcases List.mem_append.mp hr with hr | hr
      · rw [fields_eq] at hr
        simp only [referenceFieldEdges, List.mem_map] at hr
        obtain ⟨f, _, rfl⟩ := hr
        exact ⟨_, rfl⟩
      · exact ih c.super rest hrest r hr

theorem dispatch_edge_slots (h : Heap) (fuel : Nat) (obj : Ptr) (out : List Report)
    (hrun : JavaObject.dispatch h fuel obj = .ok out) :
    ∀ owner s, Report.edge owner s ∈ out →
      (∃ i, s = Slot.element owner i) ∨ (∃ off, s = Slot.objectField owner off) := by
  intro owner s hr
  simp only [JavaObject.dispatch, bind_eq_ok_iff] at hrun
  obtain ⟨o, _, hrun⟩ := hrun
  cases ht : o.tracer <;> rw [ht] at hrun
  · simp [EmptyTracer] at hrun; subst hrun; simp at hr
  · simp [CommonVirtualTable.emptyTracer] at hrun; subst hrun; simp at hr
  · simp only [JavaObjectTracer, bind_eq_ok_iff] at hrun
    obtain ⟨o', _, hrun⟩ := hrun
    by_cases hcl : o'.getClass = 0
    · simp [hcl] at hrun
    · simp only [hcl, if_false, bind_eq_ok_iff, pure_eq_ok, Except.ok.injEq] at hrun
      obtain ⟨_, _, c, _, slot, _, rfl⟩ := hrun
      simp at hr
  · simp only [ArrayObjectTracer, bind_eq_ok_iff] at hrun
    obtain ⟨o', _, hrun⟩ := hrun
    by_cases hcl : o'.getClass = 0
    · simp [hcl] at hrun
    · simp only [hcl, if_false, bind_eq_ok_iff, pure_eq_ok, Except.ok.injEq] at hrun
      obtain ⟨_, _, c, _, slot, _, rfl⟩ := hrun
      rcases List.mem_cons.mp hr with hr | hr
      · simp at hr
      · left
        simp only [ArrayObjectTracer.loop, List.mem_filterMap] at hr
        obtain ⟨i, _, hi⟩ := hr
        by_cases he : o'.elements i = 0
        · simp [he] at hi
        · simp [he] at hi
          exact ⟨i, hi.1 ▸ hi.2.symm⟩
  · simp [JavaArrayTracer] at hrun; subst hrun; simp at hr
  · simp only [RegularObjectTracer, bind_eq_ok_iff] at hrun
    obtain ⟨o', _, c0, _, hrun⟩ := hrun
    by_cases hcl : (if c0.isClass = true then o'.getClass else 0) = 0
    · simp [hcl] at hrun
    · simp only [hcl, if_false, bind_eq_ok_iff, pure_eq_ok, Except.ok.injEq] at hrun
      obtain ⟨_, _, slot, _, rest, hrest, rfl⟩ := hrun
      rcases List.mem_cons.mp hr with hr | hr
      · simp at hr
      · right
        obtain ⟨off, heq⟩ := loop_edge_slots h obj fuel _ rest hrest _ hr
        simp only [Report.edge.injEq] at heq
        exact ⟨off, heq.1 ▸ heq.2⟩

theorem tracer_edge_slots (h : Heap) (N fuel : Nat) (self : Ptr) (out : List Report)
    (hrun : CommonClass.tracer h N fuel self = .ok out) :
    ∀ owner s, Report.edge owner s ∈ out →
      (∃ i, s = Slot.element owner i) ∨ (∃ off, s = Slot.objectField owner off) := by
  intro owner s hr
  simp only [CommonClass.tracer, bind_eq_ok_iff, pure_eq_ok, Except.ok.injEq] at hrun
  obtain ⟨c, _, a, ha, o, ho, d, hd, rfl⟩ := hrun
  rw [own_eq] at ho
  simp only [Except.ok.injEq] at ho
  subst ho
  rcases List.mem_append.mp hr with hr | hr
  · rcases List.mem_append.mp hr with hr | hr
    · obtain ⟨l, _, heq⟩ := parents_reports h c a ha _ hr
      simp at heq
    · unfold ownLoaderRoot at hr
      by_cases hl : c.classLoader = 0
      · simp [hl] at hr
      · simp [hl] at hr
  · obtain ⟨i, _, hsub⟩ := forEach_mem_inv _ d hd _ hr
    unfold CommonClass.tracer.delegatee at hsub
    obtain ⟨o, ho, hro⟩ := hsub
    by_cases hz : c.delegatee i = 0
    · simp [hz] at ho
      subst ho
      simp at hro
    · simp only [hz, ne_eq, not_false_eq_true, if_true, bind_eq_ok_iff, pure_eq_ok,
        Except.ok.injEq] at ho
      obtain ⟨d', hd', rfl⟩ := ho
      rcases List.mem_append.mp hro with hro | hro
      · exact dispatch_edge_slots h fuel _ d' hd' owner s hro
      · simp at hro

/-- Claim C2.  For a regular object `obj` whose concrete class `c` is a full class with a
non-null loader and whose super chain `c :: cs` ends at the root, `RegularObjectTracer`
returns (with any budget above the chain length) exactly: the root report of the
loader slot of `c`, then, for every level of the chain except the root level, most
derived first, one edge report owned by `obj` per reference-flagged virtual field in
declaration order.  Nothing else is reported. -/
theorem RegularObjectTracer_reports (h : Heap) (obj : Ptr) (o : JavaObject)
    (c : CommonClass) (cs : List CommonClass) (fuel : Nat)
    (hobj : obj ≠ 0) (ho : h.objects obj = some o)
    (hchain : SuperChain h o.getClass (c :: cs))
    (hclass : c.isClass = true) (hloader : c.classLoader ≠ 0)
    (hfuel : cs.length < fuel) :
    RegularObjectTracer h fuel obj =
      .ok (Report.root (Slot.javaLoader c.classLoader) ::
        (c :: cs).dropLast.flatMap (referenceFieldEdges obj)) := by
  have hp : o.getClass ≠ 0 ∧ h.classes o.getClass = some c := by
    cases cs with
    | nil => exact ⟨hchain.1, hchain.2.1⟩
    | cons c' cs => exact ⟨hchain.1, hchain.2.1⟩
  simp [RegularObjectTracer, deref_eq_ok hobj ho, deref_eq_ok hp.1 hp.2, hclass, hp.1,
    getJavaClassLoaderPtr_eq_ok hloader, loop_of_chain h obj cs c o.getClass fuel hchain hfuel]

/-- Witness for C2 on the demo heap: the object at `1` has the chain `10, 11, 12`; the
fields at offsets 8 and 24 of the leaf and 32 of the middle class are reported, the
non-reference fields and the field at offset 40 of the root class are not. -/
theorem RegularObjectTracer_reports_witness :
    RegularObjectTracer demoHeap 3 1 =
      .ok [Report.root (Slot.javaLoader 5), Report.edge 1 (Slot.objectField 1 8),
        Report.edge 1 (Slot.objectField 1 24), Report.edge 1 (Slot.objectField 1 32)] :=
  RegularObjectTracer_reports demoHeap 1 demoRegular demoLeaf [demoMid, demoRoot] 3
    (by decide) rfl
    ⟨by decide, rfl, by decide, by decide, rfl, by decide, by decide, rfl, rfl⟩
    rfl (by decide) (by decide)

/-- Claim C3.  For a reference array `obj` of size `n ≥ 0` whose class has a non-null
loader, `ArrayObjectTracer` returns exactly the root report of the loader slot followed
by one edge report (owner `obj`, slot `elements + i`) for each index `i < n` holding a
non-null element, in increasing index order; the number of edge reports is the number
of non-null elements among the indices `0..n-1`. -/
theorem ArrayObjectTracer_reports (h : Heap) (obj : Ptr) (o : JavaObject) (c : CommonClass)
    (n : Nat) (hobj : obj ≠ 0) (ho : h.objects obj = some o) (hsize : o.size = (n : Int))
    (hcl : o.getClass ≠ 0) (hc : h.classes o.getClass = some c)
    (hloader : c.classLoader ≠ 0) :
    ArrayObjectTracer h obj =
      .ok (Report.root (Slot.javaLoader c.classLoader) ::
        ((List.range n).filter fun i => o.elements i ≠ 0).map fun i =>
          Report.edge obj (Slot.element obj i)) ∧
    ((Report.root (Slot.javaLoader c.classLoader) ::
        ((List.range n).filter fun i => o.elements i ≠ 0).map fun i =>
          Report.edge obj (Slot.element obj i)).filter Report.isEdge).length =
      (List.range n).countP fun i => o.elements i ≠ 0 := by
  have hloop : ArrayObjectTracer.loop obj o =
      ((List.range n).filter fun i => o.elements i ≠ 0).map fun i =>
        Report.edge obj (Slot.element obj i) := by
    unfold ArrayObjectTracer.loop
    rw [hsize, Int.toNat_ofNat]
    exact filterMap_if (fun i => o.elements i ≠ 0) _ _
  constructor
  · simp [ArrayObjectTracer, deref_eq_ok hobj ho, deref_eq_ok hcl hc, hcl,
      getJavaClassLoaderPtr_eq_ok hloader, hloop]
  · rw [List.filter_cons]
    simp only [Report.isEdge]
    rw [List.countP_eq_length_filter]
    have hall : ∀ l : List Nat,
        ((l.map fun i => Report.edge obj (Slot.element obj i)).filter Report.isEdge).length
          = l.length := by
      intro l
      induction l with
      | nil => rfl
      | cons i l ih => simp [List.filter_cons, Report.isEdge, ih]
    simpa using hall _

/-- Witness for C3 on the demo heap: the array at `2` has size 4 and non-null elements
at indices 0 and 2; the non-null word at index 5 lies outside the array. -/
theorem ArrayObjectTracer_reports_witness :
    ArrayObjectTracer demoHeap 2 =
      .ok [Report.root (Slot.javaLoader 5), Report.edge 2 (Slot.element 2 0),
        Report.edge 2 (Slot.element 2 2)] :=
  (ArrayObjectTracer_reports demoHeap 2 demoRefArray demoArrayClass 4
    (by decide) rfl rfl (by decide) rfl (by decide)).1

/-- Claim C4.  A native (scalar) array is traced by `JavaArrayTracer`, which reports
nothing whatever the heap, the array, its length and its contents; `EmptyTracer` and
`CommonVirtualTable::emptyTracer` report nothing for every argument; and the virtual
call on any mapped object whose dispatch table holds one of these three tracers
reports nothing. -/
theorem scalar_tracers_report_nothing (h : Heap) (fuel : Nat) (obj : Ptr) :
    JavaArrayTracer h obj = .ok [] ∧ EmptyTracer obj = .ok [] ∧
    CommonVirtualTable.emptyTracer obj = .ok [] ∧
    ∀ o : JavaObject, obj ≠ 0 → h.objects obj = some o →
      (o.tracer = .JavaArrayTracer ∨ o.tracer = .EmptyTracer ∨ o.tracer = .emptyTracer) →
      JavaObject.dispatch h fuel obj = .ok [] := by
  refine ⟨rfl, rfl, rfl, ?_⟩
  intro o hobj ho ht
  rcases ht with ht | ht | ht <;>
    simp [JavaObject.dispatch, deref_eq_ok hobj ho, ht, JavaArrayTracer, EmptyTracer,
      CommonVirtualTable.emptyTracer]

/-- Witness for C4 on the demo heap: the native array at `3` has size 3 and non-zero
contents, and its virtual tracer call reports nothing. -/
theorem scalar_tracers_report_nothing_witness :
    JavaObject.dispatch demoHeap 0 3 = .ok [] :=
  (scalar_tracers_report_nothing demoHeap 0 3).2.2.2 demoNativeArray (by decide) rfl
    (Or.inl rfl)

/-- Claim C5.  For a plain object whose class is set and has a non-null loader,
`JavaObjectTracer` returns exactly one report, the root report of the
class-loader-object slot of the loader of the object's class, whatever fields the class
declares. -/
theorem JavaObjectTracer_reports (h : Heap) (obj : Ptr) (o : JavaObject) (c : CommonClass)
    (hobj : obj ≠ 0) (ho : h.objects obj = some o)
    (hcl : o.getClass ≠ 0) (hc : h.classes o.getClass = some c)
    (hloader : c.classLoader ≠ 0) :
    JavaObjectTracer h obj = .ok [Report.root (Slot.javaLoader c.classLoader)] := by
  simp [JavaObjectTracer, deref_eq_ok hobj ho, deref_eq_ok hcl hc, hcl,
    getJavaClassLoaderPtr_eq_ok hloader]

/-- Witness for C5 on the demo heap: the plain object at `6` is an instance of the root
class, which declares a reference field; only the loader slot is reported. -/
theorem JavaObjectTracer_reports_witness :
    JavaObjectTracer demoHeap 6 = .ok [Report.root (Slot.javaLoader 4)] :=
  JavaObjectTracer_reports demoHeap 6 demoPlain demoRoot (by decide) rfl (by decide) rfl
    (by decide)

/-! ## Class tracers -/

/-- Counterexample to claim C6 as stated.  The class at `25` has no super class and
declares the interface `21`, whose loader `5` is set and holds a loader object; its
tracer reports only its own loader slot.  The class at `26` has a super class and
declares the interface `22`, whose loader `4` is set but holds no loader object; the
slot of loader `4` is not reported. -/
theorem CommonClass_tracer_interfaces_counterexample :
    ((demoHeap.classes 25).map fun c => (c.super, c.interfaces)) = some (0, [21]) ∧
    ((demoHeap.classes 21).map fun c => c.classLoader) = some 5 ∧
    ((demoHeap.loaders 5).map fun l => l.javaLoader) = some 50 ∧
    CommonClass.tracer demoHeap 1 0 25 = .ok [Report.root (Slot.javaLoader 7)] ∧
    ((demoHeap.classes 26).map fun c => (c.super, c.interfaces)) = some (20, [21, 22]) ∧
    ((demoHeap.classes 22).map fun c => c.classLoader) = some 4 ∧
    CommonClass.tracer demoHeap 1 0 26 =
      .ok [Report.root (Slot.javaLoader 5), Report.root (Slot.javaLoader 7)] :=
  ⟨rfl, rfl, rfl, rfl, rfl, rfl, rfl⟩

/-- Claim C6, amended.  For a class `c` that has a super class whose loader is set, the
tracer returns the super-loader report (if any), then, for the declared interfaces in
index order, the root report of the loader slot of each interface whose loader is set
and whose loader slot holds a loader object, then the own-loader report and the
delegatee part.  In particular every such interface loader slot is reported as a root;
an interface whose loader is unset or whose loader slot is empty contributes nothing. -/
theorem CommonClass_tracer_interfaces (h : Heap) (N fuel : Nat) (self : Ptr)
    (c s : CommonClass) (sl : JnjvmClassLoader) (d : List Report)
    (hself : self ≠ 0) (hc : h.classes self = some c)
    (hsup : c.super ≠ 0) (hs : h.classes c.super = some s)
    (hscl : s.classLoader ≠ 0) (hsl : h.loaders s.classLoader = some sl)
    (hitf : ∀ p ∈ c.interfaces, p ≠ 0 ∧ ∃ itf, h.classes p = some itf ∧
      (itf.classLoader ≠ 0 → ∃ l, h.loaders itf.classLoader = some l))
    (hd : forEach (CommonClass.tracer.delegatee h fuel self c) (List.range N) = .ok d) :
    CommonClass.tracer h N fuel self =
      .ok ((if sl.javaLoader ≠ 0 then [Report.root (Slot.javaLoader s.classLoader)] else [])
        ++ c.interfaces.flatMap (interfaceLoaderRoot h) ++ ownLoaderRoot c ++ d) ∧
    ∀ p itf l, p ∈ c.interfaces → h.classes p = some itf → itf.classLoader ≠ 0 →
      h.loaders itf.classLoader = some l → l.javaLoader ≠ 0 →
      Report.root (Slot.javaLoader itf.classLoader) ∈
        c.interfaces.flatMap (interfaceLoaderRoot h) := by
  have hitfs : forEach (CommonClass.tracer.interface h) c.interfaces =
      .ok (c.interfaces.flatMap (interfaceLoaderRoot h)) := by
    apply forEach_eq_ok
    intro p hp
    obtain ⟨hp0, itf, hi, hl⟩ := hitf p hp
    exact interface_eq h p itf hp0 hi hl
  have hpar : CommonClass.tracer.parents h c =
      .ok ((if sl.javaLoader ≠ 0 then [Report.root (Slot.javaLoader s.classLoader)] else [])
        ++ c.interfaces.flatMap (interfaceLoaderRoot h)) := by
    simp [CommonClass.tracer.parents, hsup, deref_eq_ok hsup hs, hscl,
      getJavaClassLoaderPtr_eq_ok hscl, deref_eq_ok hscl hsl, hitfs]
  refine ⟨tracer_eq h N fuel self c _ d hself hc hpar hd, ?_⟩
  intro p itf l hp hi hcl hl hj
  refine List.mem_flatMap.mpr ⟨p, hp, ?_⟩
  simp [interfaceLoaderRoot, hi, hcl, hl, hj]

/-- Witness for C6 (amended) on the demo heap: the class at `23` has the super class
`24` (loader `5`) and the interfaces `21` (loader `5`, reported) and `22` (bootstrap
loader with an empty slot, not reported). -/
theorem CommonClass_tracer_interfaces_witness :
    CommonClass.tracer demoHeap 1 0 23 =
      .ok [Report.root (Slot.javaLoader 5), Report.root (Slot.javaLoader 5),
        Report.root (Slot.javaLoader 7)] :=
  (CommonClass_tracer_interfaces demoHeap 1 0 23 demoClassA demoClassB
    ⟨50, 4, [], 0, demoUpcalls⟩ [] (by decide) rfl (by decide) rfl (by decide) rfl
    (by
      intro p hp
      simp only [demoClassA, List.mem_cons, List.mem_singleton, List.not_mem_nil,
        or_false] at hp
      rcases hp with rfl | rfl
      · exact ⟨by decide, demoItfApp, rfl, fun _ => ⟨_, rfl⟩⟩
      · exact ⟨by decide, demoItfBoot, rfl, fun _ => ⟨_, rfl⟩⟩)
    rfl).1

/-- Counterexample to claim C7 as stated.  The class at `26` (own loader `7`) has the
super class `20`, whose loader `4` is set; the loader slot of `4` holds no loader object
and is not reported. -/
theorem CommonClass_tracer_super_counterexample :
    ((demoHeap.classes 26).map fun c => c.super) = some 20 ∧
    ((demoHeap.classes 20).map fun c => c.classLoader) = some 4 ∧
    ((demoHeap.loaders 4).map fun l => l.javaLoader) = some 0 ∧
    CommonClass.tracer demoHeap 1 0 26 =
      .ok [Report.root (Slot.javaLoader 5), Report.root (Slot.javaLoader 7)] ∧
    Report.root (Slot.javaLoader 4) ∉
      [Report.root (Slot.javaLoader 5), Report.root (Slot.javaLoader 7)] :=
  ⟨rfl, rfl, rfl, rfl, by decide⟩

/-- Claim C7, amended.  Let `own` be the own-loader report of `c` and `d` the delegatee
part of its tracer.
(1) If `c` has a super class whose loader is set and whose loader's class-loader-object
slot holds a non-null loader object, the tracer reports that slot as a root: the root
report is the first entry of the log, which continues with the interface part `itfs`,
`own` and `d`, and no entry of the log is an edge report of that slot.
(2) If `c` has no super class, the log is `own ++ d`.
(3) If the super's loader is not set, the log is `own ++ d` and contains no report,
root or edge, of the (null) super loader's slot.
(4) If the super's loader is set but its slot holds null, the log is
`itfs ++ own ++ d`: the tracer emits no report of its own for the super class. -/
theorem CommonClass_tracer_super (h : Heap) (N fuel : Nat) (self : Ptr) (c : CommonClass)
    (d : List Report) (hself : self ≠ 0) (hc : h.classes self = some c)
    (hd : forEach (CommonClass.tracer.delegatee h fuel self c) (List.range N) = .ok d) :
    (∀ s sl itfs, c.super ≠ 0 → h.classes c.super = some s → s.classLoader ≠ 0 →
      h.loaders s.classLoader = some sl → sl.javaLoader ≠ 0 →
      forEach (CommonClass.tracer.interface h) c.interfaces = .ok itfs →
      CommonClass.tracer h N fuel self =
        .ok (Report.root (Slot.javaLoader s.classLoader) :: (itfs ++ ownLoaderRoot c ++ d)) ∧
      Report.root (Slot.javaLoader s.classLoader) ∈
        Report.root (Slot.javaLoader s.classLoader) :: (itfs ++ ownLoaderRoot c ++ d) ∧
      ∀ owner, Report.edge owner (Slot.javaLoader s.classLoader) ∉
        Report.root (Slot.javaLoader s.classLoader) :: (itfs ++ ownLoaderRoot c ++ d)) ∧
    (c.super = 0 → CommonClass.tracer h N fuel self = .ok (ownLoaderRoot c ++ d)) ∧
    (∀ s, c.super ≠ 0 → h.classes c.super = some s → s.classLoader = 0 →
      CommonClass.tracer h N fuel self = .ok (ownLoaderRoot c ++ d) ∧
      ∀ r ∈ ownLoaderRoot c ++ d,
        r ≠ Report.root (Slot.javaLoader s.classLoader) ∧
        ∀ owner, r ≠ Report.edge owner (Slot.javaLoader s.classLoader)) ∧
    (∀ s sl itfs, c.super ≠ 0 → h.classes c.super = some s → s.classLoader ≠ 0 →
      h.loaders s.classLoader = some sl → sl.javaLoader = 0 →
      forEach (CommonClass.tracer.interface h) c.interfaces = .ok itfs →
      CommonClass.tracer h N fuel self = .ok (itfs ++ ownLoaderRoot c ++ d)) := by
  have hnoedge : ∀ out, CommonClass.tracer h N fuel self = .ok out →
      ∀ owner l, Report.edge owner (Slot.javaLoader l) ∉ out := by
    intro out hrun owner l hmem
    rcases tracer_edge_slots h N fuel self out hrun owner _ hmem with ⟨i, heq⟩ | ⟨off, heq⟩
    · simp at heq
    · simp at heq
  refine ⟨?_, ?_, ?_, ?_⟩
  · intro s sl itfs hsup hs hscl hsl hj hitfs
    have hrun : CommonClass.tracer h N fuel self =
        .ok (Report.root (Slot.javaLoader s.classLoader) ::
          (itfs ++ ownLoaderRoot c ++ d)) := by
      have hpar : CommonClass.tracer.parents h c =
          .ok (Report.root (Slot.javaLoader s.classLoader) :: itfs) := by
        simp [CommonClass.tracer.parents, hsup, deref_eq_ok hsup hs, hscl,
          getJavaClassLoaderPtr_eq_ok hscl, deref_eq_ok hscl hsl, hitfs, hj]
      simpa using tracer_eq h N fuel self c _ d hself hc hpar hd
    exact ⟨hrun, List.mem_cons_self _ _, fun owner => hnoedge _ hrun owner _⟩
  · intro hsup
    have hpar : CommonClass.tracer.parents h c = .ok [] := by
      simp [CommonClass.tracer.parents, hsup]
    simpa using tracer_eq h N fuel self c [] d hself hc hpar hd
  · intro s hsup hs hscl
    have hpar : CommonClass.tracer.parents h c = .ok [] := by
      simp [CommonClass.tracer.parents, hsup, deref_eq_ok hsup hs, hscl]
    have hrun : CommonClass.tracer h N fuel self = .ok (ownLoaderRoot c ++ d) := by
      simpa using tracer_eq h N fuel self c [] d hself hc hpar hd
    refine ⟨hrun, fun r hr => ⟨?_, fun owner heq => ?_⟩⟩
    · intro heq
      subst heq
      rw [hscl] at hr
      rcases tracer_reports h N fuel self _ hrun _ hr with (⟨l, hl, heq⟩ | hedge) | ⟨i, heq⟩
      · simp only [Report.root.injEq, Slot.javaLoader.injEq] at heq
        exact hl heq.symm
      · simp [Report.isEdge] at hedge
      · simp at heq
    · subst heq
      exact hnoedge _ hrun owner _ hr
  · intro s sl itfs hsup hs hscl hsl hj hitfs
    have hpar : CommonClass.tracer.parents h c = .ok itfs := by
      simp [CommonClass.tracer.parents, hsup, deref_eq_ok hsup hs, hscl,
        getJavaClassLoaderPtr_eq_ok hscl, deref_eq_ok hscl hsl, hitfs, hj]
    exact tracer_eq h N fuel self c _ d hself hc hpar hd

/-- Witness for C7 (amended) on the demo heap.  The class at `23` has the super class
`24`, whose loader `5` holds the loader object `50`: the first report is the root
report of the slot of loader `5`.  The class at `22` has the super class `20`, whose
loader `4` holds no loader object: the log is the interface part (empty), the
own-loader report (loader `4` is also the own loader of `22`) and the delegatee part
(empty). -/
theorem CommonClass_tracer_super_witness :
    CommonClass.tracer demoHeap 1 0 23 =
      .ok (Report.root (Slot.javaLoader 5) ::
        ([Report.root (Slot.javaLoader 5)] ++ [Report.root (Slot.javaLoader 7)] ++ [])) ∧
    CommonClass.tracer demoHeap 1 0 22 = .ok ([] ++ [Report.root (Slot.javaLoader 4)] ++ []) :=
  ⟨((CommonClass_tracer_super demoHeap 1 0 23 demoClassA [] (by decide) rfl rfl).1
      demoClassB ⟨50, 4, [], 0, demoUpcalls⟩ [Report.root (Slot.javaLoader 5)]
      (by decide) rfl (by decide) rfl (by decide) rfl).1,
    (CommonClass_tracer_super demoHeap 1 0 22 demoItfBoot [] (by decide) rfl rfl).2.2.2
      demoObjectClass ⟨0, 4, [(1, 20), (2, 22), (3, 23)], 60, demoBootUpcalls⟩ []
      (by decide) rfl (by decide) rfl rfl rfl⟩

/-- Claim C8.  Whenever the parents part and the delegatee part of the tracer of a class
`c` complete (with logs `a` and `d`), the tracer completes with the log
`a ++ own ++ d`, where `own` is the root report of the own loader slot
if `c.classLoader` is non-null and empty otherwise.  The own loader slot is reported as
a root if and only if `c.classLoader` is non-null; with a null `classLoader` the tracer
completes with `a ++ d` and the loader is not dereferenced. -/
theorem CommonClass_tracer_own_loader (h : Heap) (N fuel : Nat) (self : Ptr)
    (c : CommonClass) (a d : List Report) (hself : self ≠ 0) (hc : h.classes self = some c)
    (ha : CommonClass.tracer.parents h c = .ok a)
    (hd : forEach (CommonClass.tracer.delegatee h fuel self c) (List.range N) = .ok d) :
    CommonClass.tracer h N fuel self =
      .ok (a ++ (if c.classLoader ≠ 0 then [Report.root (Slot.javaLoader c.classLoader)]
        else []) ++ d) ∧
    (Report.root (Slot.javaLoader c.classLoader) ∈
        a ++ (if c.classLoader ≠ 0 then [Report.root (Slot.javaLoader c.classLoader)]
          else []) ++ d ↔ c.classLoader ≠ 0) ∧
    (c.classLoader = 0 → CommonClass.tracer h N fuel self = .ok (a ++ d)) := by
  have hrun := tracer_eq h N fuel self c a d hself hc ha hd
  refine ⟨hrun, ⟨?_, ?_⟩, ?_⟩
  · intro hmem hz
    have hkind := tracer_reports h N fuel self _ hrun _ hmem
    rw [hz] at hkind
    rcases hkind with (⟨l, hl, heq⟩ | hedge) | ⟨i, heq⟩
    · simp only [Report.root.injEq, Slot.javaLoader.injEq] at heq
      exact hl heq.symm
    · simp [Report.isEdge] at hedge
    · simp at heq
  · intro hnz
    simp [hnz]
  · intro hz
    simpa [ownLoaderRoot, hz] using hrun

/-- Witness for C8 on the demo heap: the primitive pseudo-class at `27` has a null
loader; its tracer completes and reports the delegatee's log and the delegatee slot,
but no own-loader slot. -/
theorem CommonClass_tracer_own_loader_witness :
    CommonClass.tracer demoHeap 1 0 27 =
      .ok ([] ++ [Report.root (Slot.javaLoader 4), Report.root (Slot.delegatee 27 0)]) :=
  (CommonClass_tracer_own_loader demoHeap 1 0 27 demoPrimitive []
    [Report.root (Slot.javaLoader 4), Report.root (Slot.delegatee 27 0)]
    (by decide) rfl rfl rfl).2.2 rfl

/-- Claim C9.  Let `a` be the log of the parents part of the tracer of a class `c` and
let `d i` be the log of the virtual tracer call on `delegatee[i]` for every index
`i < NR_ISOLATES` whose delegatee is non-null.  The tracer returns the loader-slot
reports (`a` and the own-loader report, all of them loader roots) followed, for
`i = 0, ..., NR_ISOLATES - 1` in this order, by `d i` and then the root report of the
slot `delegatee + i` when `delegatee[i]` is non-null, and by nothing when it is null. -/
theorem CommonClass_tracer_delegatees (h : Heap) (N fuel : Nat) (self : Ptr)
    (c : CommonClass) (a : List Report) (d : Nat → List Report)
    (hself : self ≠ 0) (hc : h.classes self = some c)
    (ha : CommonClass.tracer.parents h c = .ok a)
    (hd : ∀ i, i < N → c.delegatee i ≠ 0 →
      JavaObject.dispatch h fuel (c.delegatee i) = .ok (d i)) :
    CommonClass.tracer h N fuel self =
      .ok ((a ++ ownLoaderRoot c) ++ (List.range N).flatMap fun i =>
        if c.delegatee i ≠ 0 then d i ++ [Report.root (Slot.delegatee self i)] else []) ∧
    ∀ r ∈ a ++ ownLoaderRoot c, LoaderRoot r := by
  refine ⟨tracer_eq h N fuel self c a _ hself hc ha
    (delegatees_eq h N fuel self c d hd), ?_⟩
  intro r hr
  rcases List.mem_append.mp hr with hr | hr
  · exact parents_reports h c a ha r hr
  · unfold ownLoaderRoot at hr
    by_cases hl : c.classLoader = 0
    · simp [hl] at hr
    · simp [hl] at hr
      exact ⟨_, hl, hr⟩

/-- Witness for C9 on the demo heap with two isolates: the class at `23` has no
delegatee in isolate 0 and the regular object `1` as delegatee in isolate 1; the log of
that object's tracer is followed by the root report of the slot `delegatee + 1`. -/
theorem CommonClass_tracer_delegatees_witness :
    CommonClass.tracer demoHeap 2 3 23 =
      .ok ([Report.root (Slot.javaLoader 5), Report.root (Slot.javaLoader 5),
          Report.root (Slot.javaLoader 7)] ++
        [Report.root (Slot.javaLoader 5), Report.edge 1 (Slot.objectField 1 8),
          Report.edge 1 (Slot.objectField 1 24), Report.edge 1 (Slot.objectField 1 32),
          Report.root (Slot.delegatee 23 1)]) :=
  (CommonClass_tracer_delegatees demoHeap 2 3 23 demoClassA
    [Report.root (Slot.javaLoader 5), Report.root (Slot.javaLoader 5)]
    (fun _ => [Report.root (Slot.javaLoader 5), Report.edge 1 (Slot.objectField 1 8),
      Report.edge 1 (Slot.objectField 1 24), Report.edge 1 (Slot.objectField 1 32)])
    (by decide) rfl rfl
    (by
      intro i hi hne
      have h1 : i = 1 := by
        by_contra hcon
        exact hne (by simp [demoClassA, hcon])
      subst h1
      rfl)).1

/-- Claim C10.  For a full class `c` at `self` whose loader is non-null (and mapped to
`l`), if `CommonClass::tracer` on `c` returns `common`, then `Class::tracer` returns
`common`, followed by the root report of the slot `&bytes` if and only if
`c.classLoader ≠ l.bootstrapLoader`, followed by the static-field reports (roots of
field slots).  For a class loaded by the bootstrap loader the bytes slot does not occur
anywhere in the log. -/
theorem Class_tracer_bytes (h : Heap) (N fuel : Nat) (self : Ptr) (c : CommonClass)
    (l : JnjvmClassLoader) (common : List Report)
    (hself : self ≠ 0) (hc : h.classes self = some c) (hfull : c.isClass = true)
    (hcl : c.classLoader ≠ 0) (hl : h.loaders c.classLoader = some l)
    (hcommon : CommonClass.tracer h N fuel self = .ok common) :
    ∃ statics : List Report,
      Class.tracer h N fuel self =
        .ok (common ++
          (if c.classLoader ≠ l.bootstrapLoader then [Report.root (Slot.bytes self)] else [])
          ++ statics) ∧
      (∀ r ∈ statics, ∃ p off, r = Report.root (Slot.objectField p off)) ∧
      (c.classLoader = l.bootstrapLoader →
        Report.root (Slot.bytes self) ∉
          common ++
          (if c.classLoader ≠ l.bootstrapLoader then [Report.root (Slot.bytes self)] else [])
          ++ statics) := by
  have _ := hfull
  refine ⟨(List.range N).flatMap fun i =>
    if (c.IsolateInfo i).staticInstance ≠ 0 then
      Class.tracer.staticFields c (c.IsolateInfo i).staticInstance
    else [], ?_, ?_, ?_⟩
  · by_cases hb : c.classLoader = l.bootstrapLoader
    · simp only [Class.tracer, hcommon, deref_eq_ok hself hc, Class.tracer.bytes,
        deref_eq_ok hcl hl, statics_eq, bind_ok, pure_eq_ok]
      simp [hb]
    · simp only [Class.tracer, hcommon, deref_eq_ok hself hc, Class.tracer.bytes,
        deref_eq_ok hcl hl, statics_eq, bind_ok, pure_eq_ok]
      simp [hb]
  · intro r hr
    obtain ⟨i, _, hr⟩ := List.mem_flatMap.mp hr
    by_cases hz : (c.IsolateInfo i).staticInstance = 0
    · simp [hz] at hr
    · simp only [hz, ne_eq, not_false_eq_true, if_true, Class.tracer.staticFields,
        List.mem_filterMap] at hr
      obtain ⟨f, _, hf⟩ := hr
      by_cases href : f.isReference = true
      · simp [href, JavaField.getObjectFieldPtr] at hf
        exact ⟨_, _, hf.symm⟩
      · simp [href] at hf
  · intro hb hmem
    simp only [hb, ne_eq, not_true_eq_false, if_false, List.append_nil,
      List.mem_append] at hmem
    rcases hmem with hmem | hmem
    · rcases tracer_reports h N fuel self common hcommon _ hmem with
        (⟨l', _, heq⟩ | hedge) | ⟨i, heq⟩
      · simp at heq
      · simp [Report.isEdge] at hedge
      · simp at heq
    · obtain ⟨i, _, hr⟩ := List.mem_flatMap.mp hmem
      by_cases hz : (c.IsolateInfo i).staticInstance = 0
      · simp [hz] at hr
      · simp only [hz, ne_eq, not_false_eq_true, if_true, Class.tracer.staticFields,
          List.mem_filterMap] at hr
        obtain ⟨f, _, hf⟩ := hr
        by_cases href : f.isReference = true
        · simp [href, JavaField.getObjectFieldPtr] at hf
        · simp [href] at hf

/-- Witness for C10 on the demo heap: the class at `23` was loaded by loader `7`, which
is not its bootstrap loader `4`, so the log of the common tracer is followed by the
bytes slot. -/
theorem Class_tracer_bytes_witness :
    ∃ statics : List Report,
      Class.tracer demoHeap 1 0 23 =
        .ok ([Report.root (Slot.javaLoader 5), Report.root (Slot.javaLoader 5),
            Report.root (Slot.javaLoader 7)] ++
          (if (7 : Ptr) ≠ 4 then [Report.root (Slot.bytes 23)] else []) ++ statics) :=
  (Class_tracer_bytes demoHeap 1 0 23 demoClassA ⟨70, 4, [], 0, demoUpcalls⟩
    [Report.root (Slot.javaLoader 5), Report.root (Slot.javaLoader 5),
      Report.root (Slot.javaLoader 7)]
    (by decide) rfl rfl (by decide) rfl rfl).imp fun _ hs => hs.1

/-! ## The virtual machine tracer -/

/-- Claim C11.  For a full class `c` at `self` whose loader is mapped to `l`, if the
common part returns `common`, then `Class::tracer` returns `common`, the optional bytes
report, and then `staticFieldRoots c N`: for each isolation context in increasing order
that has a static instance, one root report per reference-flagged static field in
declaration order, the slot being the field's location inside that static instance.
Contexts without a static instance and fields not flagged contribute nothing, and none
of these reports is an edge. -/
theorem Class_tracer_statics (h : Heap) (N fuel : Nat) (self : Ptr) (c : CommonClass)
    (l : JnjvmClassLoader) (common : List Report)
    (hself : self ≠ 0) (hc : h.classes self = some c) (hfull : c.isClass = true)
    (hcl : c.classLoader ≠ 0) (hl : h.loaders c.classLoader = some l)
    (hcommon : CommonClass.tracer h N fuel self = .ok common) :
    Class.tracer h N fuel self =
      .ok (common ++
        (if c.classLoader ≠ l.bootstrapLoader then [Report.root (Slot.bytes self)] else [])
        ++ staticFieldRoots c N) ∧
    ∀ r ∈ staticFieldRoots c N, r.isEdge = false := by
  have _ := hfull
  have hst : ∀ inst, Class.tracer.staticFields c inst =
      (c.staticFields.filter fun f => f.isReference).map fun f =>
        Report.root (Slot.objectField inst f.ptrOffset) := by
    intro inst
    unfold Class.tracer.staticFields JavaField.getObjectFieldPtr
    simpa using filterMap_if (fun f : JavaField => f.isReference = true)
      (fun f => Report.root (Slot.objectField inst f.ptrOffset)) c.staticFields
  constructor
  · simp only [Class.tracer, hcommon, deref_eq_ok hself hc, Class.tracer.bytes,
      deref_eq_ok hcl hl, statics_eq, bind_ok, pure_eq_ok, staticFieldRoots, hst]
    by_cases hb : c.classLoader = l.bootstrapLoader
    · simp [hb]
    · simp [hb]
  · intro r hr
    obtain ⟨i, _, hr⟩ := List.mem_flatMap.mp hr
    by_cases hz : (c.IsolateInfo i).staticInstance = 0
    · simp [hz] at hr
    · simp only [hz, ne_eq, not_false_eq_true, if_true, List.mem_map] at hr
      obtain ⟨f, _, rfl⟩ := hr
      rfl

/-- Witness for C11 on the demo heap with two isolates: the class at `23` has the
static instance `30` in isolate 0 only and the static fields at offsets 8 (reference),
12 (not a reference) and 16 (reference). -/
theorem Class_tracer_statics_witness :
    Class.tracer demoHeap 2 3 23 =
      .ok ([Report.root (Slot.javaLoader 5), Report.root (Slot.javaLoader 5),
          Report.root (Slot.javaLoader 7), Report.root (Slot.javaLoader 5),
          Report.edge 1 (Slot.objectField 1 8), Report.edge 1 (Slot.objectField 1 24),
          Report.edge 1 (Slot.objectField 1 32), Report.root (Slot.delegatee 23 1)] ++
        (if (7 : Ptr) ≠ 4 then [Report.root (Slot.bytes 23)] else []) ++
        staticFieldRoots demoClassA 2) :=
  (Class_tracer_statics demoHeap 2 3 23 demoClassA ⟨70, 4, [], 0, demoUpcalls⟩
    [Report.root (Slot.javaLoader 5), Report.root (Slot.javaLoader 5),
      Report.root (Slot.javaLoader 7), Report.root (Slot.javaLoader 5),
      Report.edge 1 (Slot.objectField 1 8), Report.edge 1 (Slot.objectField 1 24),
      Report.edge 1 (Slot.objectField 1 32), Report.root (Slot.delegatee 23 1)]
    (by decide) rfl rfl (by decide) rfl rfl).1

/-- Counterexample to claim C12 as stated.  Loader `8` of the demo heap is not a
bootstrap loader (its bootstrap loader is `4`); its class map holds exactly the class
`Foo` at `40`, which has no super class, no interfaces, no delegatee, a static instance
and one reference-flagged static field, and its string chain is empty.  With one
isolate the tracer reports three roots: between the loader slot and the static field
slot it reports the bytes slot of `Foo`. -/
theorem JnjvmClassLoader_tracer_scenario_counterexample :
    ((demoHeap.loaders 8).map fun l => (l.bootstrapLoader, l.classes, l.strings)) =
      some (4, [(1, 40)], 0) ∧
    ((demoHeap.classes 40).map fun c =>
      (c.isClass, c.super, c.interfaces, c.classLoader, c.delegatee 0, c.staticFields,
        c.IsolateInfo 0)) = some (true, 0, [], 8, 0, [⟨true, 8⟩], ⟨41⟩) ∧
    JnjvmClassLoader.tracer demoHeap 1 1 8 =
      .ok [Report.root (Slot.javaLoader 8), Report.root (Slot.bytes 40),
        Report.root (Slot.objectField 41 8)] :=
  ⟨rfl, rfl, rfl⟩

/-- Claim C12, amended.  Let the class map of the loader at `self` hold exactly one
entry, the full class `Foo` (record `c` at `foo`), with no super class, no interfaces, no
delegatee, exactly one static field `f`, flagged as a reference, and a set loader; let
the string chain be empty.  Then `JnjvmClassLoader::tracer` returns: the root of Foo's
own loader slot, then the root of Foo's bytes slot if and only if Foo's loader is not
the bootstrap loader, then the root of the static field slot once for every isolation
context that has a static instance.  With one isolation context that has a static
instance and Foo loaded by the bootstrap loader the log is exactly the two roots (own
loader slot, static field slot); no edge is reported. -/
theorem JnjvmClassLoader_tracer_scenario (h : Heap) (N fuel : Nat) (self : Ptr)
    (l : JnjvmClassLoader) (key : Nat) (foo : Ptr) (c : CommonClass) (f : JavaField)
    (lf : JnjvmClassLoader)
    (hself : self ≠ 0) (hl : h.loaders self = some l) (hmap : l.classes = [(key, foo)])
    (hfoo : foo ≠ 0) (hc : h.classes foo = some c) (hfull : c.isClass = true)
    (hsuper : c.super = 0) (hitf : c.interfaces = [])
    (hdel : ∀ i, i < N → c.delegatee i = 0)
    (hfield : c.staticFields = [f]) (href : f.isReference = true)
    (hcl : c.classLoader ≠ 0) (hlf : h.loaders c.classLoader = some lf)
    (hstr : l.strings = 0) (hfuel : 0 < fuel) :
    JnjvmClassLoader.tracer h N fuel self =
      .ok ([Report.root (Slot.javaLoader c.classLoader)] ++
        (if c.classLoader ≠ lf.bootstrapLoader then [Report.root (Slot.bytes foo)] else []) ++
        (List.range N).flatMap fun i =>
          if (c.IsolateInfo i).staticInstance ≠ 0 then
            [Report.root (Slot.objectField (c.IsolateInfo i).staticInstance f.ptrOffset)]
          else []) ∧
    (N = 1 → (c.IsolateInfo 0).staticInstance ≠ 0 → c.classLoader = lf.bootstrapLoader →
      JnjvmClassLoader.tracer h N fuel self =
        .ok [Report.root (Slot.javaLoader c.classLoader),
          Report.root (Slot.objectField (c.IsolateInfo 0).staticInstance f.ptrOffset)]) := by
  have _ := hitf
  have hpar : CommonClass.tracer.parents h c = .ok [] := by
    simp [CommonClass.tracer.parents, hsuper]
  have hdels : forEach (CommonClass.tracer.delegatee h fuel foo c) (List.range N) = .ok [] := by
    have := @forEach_eq_ok _ (CommonClass.tracer.delegatee h fuel foo c)
      (fun _ => ([] : List Report)) (List.range N)
      (by
        intro i hi
        simp [CommonClass.tracer.delegatee, hdel i (List.mem_range.mp hi)])
    rw [flatMap_const_nil] at this
    exact this
  have hcommon : CommonClass.tracer h N fuel foo =
      .ok [Report.root (Slot.javaLoader c.classLoader)] := by
    simpa [ownLoaderRoot, hcl] using tracer_eq h N fuel foo c [] [] hfoo hc hpar hdels
  have hclass := class_tracer_eq h N fuel foo c lf _ hfoo hc hcl hlf hcommon
  have hstatics : staticFieldRoots c N =
      (List.range N).flatMap fun i =>
        if (c.IsolateInfo i).staticInstance ≠ 0 then
          [Report.root (Slot.objectField (c.IsolateInfo i).staticInstance f.ptrOffset)]
        else [] := by
    simp [staticFieldRoots, hfield, href]
  have hrun : JnjvmClassLoader.tracer h N fuel self =
      .ok ([Report.root (Slot.javaLoader c.classLoader)] ++
        (if c.classLoader ≠ lf.bootstrapLoader then [Report.root (Slot.bytes foo)] else []) ++
        (List.range N).flatMap fun i =>
          if (c.IsolateInfo i).staticInstance ≠ 0 then
            [Report.root (Slot.objectField (c.IsolateInfo i).staticInstance f.ptrOffset)]
          else []) := by
    rw [← hstatics]
    simp [JnjvmClassLoader.tracer, deref_eq_ok hself hl, hmap, forEach,
      JnjvmClassLoader.tracer.entry, deref_eq_ok hfoo hc, hfull, hclass, hstr,
      strings_empty h fuel hfuel]
  refine ⟨hrun, ?_⟩
  intro hN hinst hboot
  rw [hrun]
  subst hN
  simp [hboot, hinst, List.range_succ]

/-- Witness for C12 (amended) on the demo heap: loader `9` is its own bootstrap loader
and holds only the class `Foo` at `42`; with one isolate exactly two roots are
reported. -/
theorem JnjvmClassLoader_tracer_scenario_witness :
    JnjvmClassLoader.tracer demoHeap 1 1 9 =
      .ok [Report.root (Slot.javaLoader 9), Report.root (Slot.objectField 43 8)] :=
  (JnjvmClassLoader_tracer_scenario demoHeap 1 1 9 ⟨0, 9, [(1, 42)], 0, demoBootUpcalls⟩ 1 42
    demoFooBoot ⟨true, 8⟩ ⟨0, 9, [(1, 42)], 0, demoBootUpcalls⟩
    (by decide) rfl rfl (by decide) rfl rfl rfl rfl (fun _ _ => rfl) rfl rfl (by decide) rfl
    rfl (by decide)).2 rfl (by decide) rfl

/-- Claim C13.  Let `ss` be the null-terminated chain of string batches that starts at `p`
(links `prev`), `gs` the chain of global-reference batches that follows the batch
embedded in the VM (links `next`), and `ls` the chain of local-reference batches that
starts at `q` (links `prev`).  With a budget above the chain length each walk returns
exactly the root reports of the slots `0..length-1` of every batch, batches in link
order from the head and slots in index order, whatever the slots hold.  The number of
reports is the sum of the batch lengths, and no slot is reported twice.  An empty
chain (`ss = []`, `ls = []`) and batches of length zero contribute nothing. -/
theorem chain_walks (h : Heap) (fuel : Nat) (p : Ptr) (ss : List (Ptr × StringList))
    (self : Ptr) (vm : Jnjvm) (gs : List (Ptr × JNIGlobalReferences))
    (q : Ptr) (ls : List (Ptr × JNILocalReferences))
    (hss : BatchChain h.stringLists StringList.prev p ss) (hsf : ss.length < fuel)
    (hgs : BatchChain h.globalRefs JNIGlobalReferences.next vm.globalRefs.next gs)
    (hgf : gs.length < fuel)
    (hls : BatchChain h.localRefs JNILocalReferences.prev q ls) (hlf : ls.length < fuel) :
    (JnjvmClassLoader.tracer.strings h fuel p =
        .ok (batchRoots StringList.length Slot.strings ss) ∧
      (batchRoots StringList.length Slot.strings ss).length =
        (ss.map fun e => e.2.length).sum ∧
      (batchRoots StringList.length Slot.strings ss).Nodup) ∧
    (Jnjvm.tracer.globalWalk h fuel self vm =
        .ok (((List.range vm.globalRefs.length).map fun i =>
            Report.root (Slot.vmGlobalReferences self i)) ++
          batchRoots JNIGlobalReferences.length Slot.globalReferences gs) ∧
      (((List.range vm.globalRefs.length).map fun i =>
            Report.root (Slot.vmGlobalReferences self i)) ++
          batchRoots JNIGlobalReferences.length Slot.globalReferences gs).length =
        vm.globalRefs.length + (gs.map fun e => e.2.length).sum ∧
      (((List.range vm.globalRefs.length).map fun i =>
            Report.root (Slot.vmGlobalReferences self i)) ++
          batchRoots JNIGlobalReferences.length Slot.globalReferences gs).Nodup) ∧
    (JavaThread.tracer.localRefs h fuel q =
        .ok (batchRoots JNILocalReferences.length Slot.localReferences ls) ∧
      (batchRoots JNILocalReferences.length Slot.localReferences ls).length =
        (ls.map fun e => e.2.length).sum ∧
      (batchRoots JNILocalReferences.length Slot.localReferences ls).Nodup) := by
  refine ⟨⟨strings_of_chain h ss p fuel hss hsf, batchRoots_length _ _ ss, ?_⟩,
    ⟨?_, ?_, ?_⟩,
    ⟨localRefs_of_chain h ls q fuel hls hlf, batchRoots_length _ _ ls, ?_⟩⟩
  · exact batchRoots_nodup _ _ (fun _ _ _ _ he => by simpa using he) ss
      (batchChain_nodup _ _ ss p hss)
  · simp only [Jnjvm.tracer.globalWalk, globalRefs_of_chain h gs _ fuel hgs hgf, bind_ok,
      pure_eq_ok, batchRoots]
  · rw [List.length_append, batchRoots_length]
    simp
  · refine List.Nodup.append ?_ ?_ ?_
    · refine List.Nodup.map ?_ (List.nodup_range _)
      intro i j hij
      simpa using hij
    · exact batchRoots_nodup _ _ (fun _ _ _ _ he => by simpa using he) gs
        (batchChain_nodup _ _ gs _ hgs)
    · intro r hr hr'
      obtain ⟨i, _, rfl⟩ := List.mem_map.mp hr
      obtain ⟨e', _, j, _, heq⟩ := (batchRoots_mem _ _ gs _).mp hr'
      simp at heq
  · exact batchRoots_nodup _ _ (fun _ _ _ _ he => by simpa using he) ls
      (batchChain_nodup _ _ ls q hls)

/-- Witness for C13 on the demo heap: the string chain `60, 61` (lengths 2 and 1), the
global references of the VM (embedded batch of length 2, then batch `70` of length 1)
and the local-reference chain `80, 81, 82` (lengths 2, 0 and 1). -/
theorem chain_walks_witness :
    JnjvmClassLoader.tracer.strings demoHeap 4 60 =
      .ok [Report.root (Slot.strings 60 0), Report.root (Slot.strings 60 1),
        Report.root (Slot.strings 61 0)] ∧
    Jnjvm.tracer.globalWalk demoHeap 4 100 demoVM =
      .ok [Report.root (Slot.vmGlobalReferences 100 0),
        Report.root (Slot.vmGlobalReferences 100 1),
        Report.root (Slot.globalReferences 70 0)] ∧
    JavaThread.tracer.localRefs demoHeap 4 80 =
      .ok [Report.root (Slot.localReferences 80 0), Report.root (Slot.localReferences 80 1),
        Report.root (Slot.localReferences 82 0)] :=
  have T := chain_walks demoHeap 4 60 [(60, ⟨2, 61⟩), (61, ⟨1, 0⟩)] 100 demoVM [(70, ⟨1, 0⟩)]
    80 [(80, ⟨2, 81⟩), (81, ⟨0, 82⟩), (82, ⟨1, 0⟩)]
    ⟨rfl, by decide, rfl, rfl, by decide, rfl, rfl⟩ (by decide)
    ⟨rfl, by decide, rfl, rfl⟩ (by decide)
    ⟨rfl, by decide, rfl, rfl, by decide, rfl, rfl, by decide, rfl, rfl⟩ (by decide)
  ⟨T.1.1, T.2.1.1, T.2.2.1⟩

/-- Claim C14.  For a bootstrap loader `l` at `self`, if the generic
`JnjvmClassLoader::tracer` returns `g` and the tracer of each primitive class `p`
returns `o p`, then `JnjvmBootstrapLoader::tracer` returns `g` followed by the logs of
the nine primitive classes in the order void, boolean, byte, char, short, int, float,
long, double; no condition guards these nine calls.  When the class map is empty and
the string chain is empty, the log is exactly the concatenation of the nine logs. -/
theorem JnjvmBootstrapLoader_tracer_primitives (h : Heap) (N fuel : Nat) (self : Ptr)
    (l : JnjvmClassLoader) (g : List Report) (o : Ptr → List Report)
    (hself : self ≠ 0) (hl : h.loaders self = some l)
    (hgen : JnjvmClassLoader.tracer h N fuel self = .ok g)
    (hprim : ∀ p ∈ l.upcalls.primitives, CommonClass.tracer h N fuel p = .ok (o p)) :
    JnjvmBootstrapLoader.tracer h N fuel self =
      .ok (g ++ (o l.upcalls.OfVoid ++ (o l.upcalls.OfBool ++ (o l.upcalls.OfByte ++
        (o l.upcalls.OfChar ++ (o l.upcalls.OfShort ++ (o l.upcalls.OfInt ++
        (o l.upcalls.OfFloat ++ (o l.upcalls.OfLong ++ o l.upcalls.OfDouble))))))))) ∧
    (l.classes = [] → l.strings = 0 →
      JnjvmBootstrapLoader.tracer h N fuel self =
        .ok (o l.upcalls.OfVoid ++ (o l.upcalls.OfBool ++ (o l.upcalls.OfByte ++
          (o l.upcalls.OfChar ++ (o l.upcalls.OfShort ++ (o l.upcalls.OfInt ++
          (o l.upcalls.OfFloat ++ (o l.upcalls.OfLong ++ o l.upcalls.OfDouble))))))))) := by
  have hps := @forEach_eq_ok _ (CommonClass.tracer h N fuel) o l.upcalls.primitives hprim
  have hrun : JnjvmBootstrapLoader.tracer h N fuel self =
      .ok (g ++ (o l.upcalls.OfVoid ++ (o l.upcalls.OfBool ++ (o l.upcalls.OfByte ++
        (o l.upcalls.OfChar ++ (o l.upcalls.OfShort ++ (o l.upcalls.OfInt ++
        (o l.upcalls.OfFloat ++ (o l.upcalls.OfLong ++ o l.upcalls.OfDouble))))))))) := by
    simp only [JnjvmBootstrapLoader.tracer, hgen, deref_eq_ok hself hl, hps, bind_ok,
      pure_eq_ok]
    simp [Classpath.primitives]
  refine ⟨hrun, ?_⟩
  intro hcl hstr
  have hg : g = [] := by
    simp only [JnjvmClassLoader.tracer, deref_eq_ok hself hl, hcl, hstr, forEach, bind_ok,
      bind_eq_ok_iff, pure_eq_ok, Except.ok.injEq] at hgen
    obtain ⟨strs, hstrs, rfl⟩ := hgen
    cases fuel with
    | zero => simp [JnjvmClassLoader.tracer.strings] at hstrs
    | succ n =>
      simp [JnjvmClassLoader.tracer.strings] at hstrs
      simp [hstrs]
  rw [hrun, hg]
  rfl

/-- Witness for C14 on the demo heap: loader `10` is a fresh bootstrap loader with an
empty class map and an empty string chain; its log is the log of the primitive class
`void` (`27`, which has a delegatee), the other eight primitive classes report
nothing. -/
theorem JnjvmBootstrapLoader_tracer_primitives_witness :
    JnjvmBootstrapLoader.tracer demoHeap 1 1 10 =
      .ok ([Report.root (Slot.javaLoader 4), Report.root (Slot.delegatee 27 0)] ++
        ([] ++ ([] ++ ([] ++ ([] ++ ([] ++ ([] ++ ([] ++ []))))))) ) :=
  (JnjvmBootstrapLoader_tracer_primitives demoHeap 1 1 10 ⟨0, 10, [], 0, demoBootUpcalls⟩ []
    (fun p => if p = 27 then
      [Report.root (Slot.javaLoader 4), Report.root (Slot.delegatee 27 0)] else [])
    (by decide) rfl rfl
    (by
      intro p hp
      simp only [Classpath.primitives, demoBootUpcalls, List.mem_cons, List.mem_singleton,
        List.not_mem_nil, or_false] at hp
      rcases hp with rfl | rfl | rfl | rfl | rfl | rfl | rfl | rfl | rfl <;> rfl)).2 rfl rfl

/-- Claim C15.  For a loader `l` at `self`, let `outs e` be the log of `Class::tracer` on
the entry `e` of the class map when the entry is a full class, and the log of
`CommonClass::tracer` otherwise, and let `strs` be the log of the string walk.  Then
`JnjvmClassLoader::tracer` returns the logs `outs e` of the entries, each once and in
map order, followed by `strs`, which consists of string slots only.  For an entry that
is not a full class, its log contains neither a bytes slot nor a static field slot, and
its bytes slot occurs nowhere in the loader's log. -/
theorem JnjvmClassLoader_tracer_entries (h : Heap) (N fuel : Nat) (self : Ptr)
    (l : JnjvmClassLoader) (outs : Nat × Ptr → List Report) (strs : List Report)
    (hself : self ≠ 0) (hl : h.loaders self = some l)
    (hentries : ∀ e ∈ l.classes, e.2 ≠ 0 ∧ ∃ c, h.classes e.2 = some c ∧
      (if c.isClass = true then Class.tracer h N fuel e.2
        else CommonClass.tracer h N fuel e.2) = .ok (outs e))
    (hstrs : JnjvmClassLoader.tracer.strings h fuel l.strings = .ok strs) :
    JnjvmClassLoader.tracer h N fuel self = .ok (l.classes.flatMap outs ++ strs) ∧
    (∀ r ∈ strs, ∃ b i, r = Report.root (Slot.strings b i)) ∧
    (∀ e ∈ l.classes, ∀ c, h.classes e.2 = some c → c.isClass = false →
      (∀ r ∈ outs e, (∀ cl, r ≠ Report.root (Slot.bytes cl)) ∧
        ∀ inst off, r ≠ Report.root (Slot.objectField inst off)) ∧
      Report.root (Slot.bytes e.2) ∉ l.classes.flatMap outs ++ strs) := by
  have hcs : forEach (JnjvmClassLoader.tracer.entry h N fuel) l.classes =
      .ok (l.classes.flatMap outs) := by
    apply forEach_eq_ok
    intro e he
    obtain ⟨he0, c, hc, hrun⟩ := hentries e he
    simp only [JnjvmClassLoader.tracer.entry, deref_eq_ok he0 hc, bind_ok]
    exact hrun
  have hcommon_clean : ∀ e ∈ l.classes, ∀ c, h.classes e.2 = some c → c.isClass = false →
      ∀ r ∈ outs e, ClassReport e.2 r := by
    intro e he c hc hnf r hr
    obtain ⟨_, c', hc', hrun⟩ := hentries e he
    rw [hc] at hc'
    have hcc := Option.some.inj hc'
    subst hcc
    simp only [hnf, Bool.false_eq_true, if_false] at hrun
    exact tracer_reports h N fuel e.2 _ hrun r hr
  refine ⟨?_, strings_reports h fuel l.strings strs hstrs, ?_⟩
  · simp [JnjvmClassLoader.tracer, deref_eq_ok hself hl, hcs, hstrs]
  · intro e he c hc hnf
    refine ⟨fun r hr => ?_, ?_⟩
    · have hk := hcommon_clean e he c hc hnf r hr
      exact ⟨fun cl => (classReport_not_bytes e.2 cl r hk).1,
        (classReport_not_bytes e.2 0 r hk).2⟩
    · intro hmem
      rcases List.mem_append.mp hmem with hmem | hmem
      · obtain ⟨e', he', hr⟩ := List.mem_flatMap.mp hmem
        obtain ⟨_, c', hc', hrun⟩ := hentries e' he'
        by_cases hfull : c'.isClass = true
        · simp only [hfull, if_true] at hrun
          rcases class_tracer_reports h N fuel e'.2 _ hrun _ hr with hk | heq | ⟨_, _, heq⟩
          · exact (classReport_not_bytes e'.2 e.2 _ hk).1 rfl
          · simp only [Report.root.injEq, Slot.bytes.injEq] at heq
            rw [heq, hc'] at hc
            have hcc := Option.some.inj hc
            subst hcc
            rw [hfull] at hnf
            exact Bool.noConfusion hnf
          · simp at heq
        · simp only [hfull, if_false] at hrun
          exact (classReport_not_bytes e'.2 e.2 _
            (tracer_reports h N fuel e'.2 _ hrun _ hr)).1 rfl
      · obtain ⟨b, i, heq⟩ := strings_reports h fuel l.strings strs hstrs _ hmem
        simp at heq

/-- Witness for C15 on the demo heap: the class map of loader `11` holds the full class
`24`, the array class `13` and the primitive class `27`; only the full class gets a
bytes report, and the string slot comes last. -/
theorem JnjvmClassLoader_tracer_entries_witness :
    JnjvmClassLoader.tracer demoHeap 1 2 11 =
      .ok ([Report.root (Slot.javaLoader 5), Report.root (Slot.bytes 24),
          Report.root (Slot.javaLoader 5), Report.root (Slot.javaLoader 4),
          Report.root (Slot.delegatee 27 0)] ++ [Report.root (Slot.strings 61 0)]) :=
  (JnjvmClassLoader_tracer_entries demoHeap 1 2 11
    ⟨0, 4, [(1, 24), (2, 13), (3, 27)], 61, demoUpcalls⟩
    (fun e =>
      if e.2 = 24 then [Report.root (Slot.javaLoader 5), Report.root (Slot.bytes 24)]
      else if e.2 = 13 then [Report.root (Slot.javaLoader 5)]
      else [Report.root (Slot.javaLoader 4), Report.root (Slot.delegatee 27 0)])
    [Report.root (Slot.strings 61 0)] (by decide) rfl
    (by
      intro e he
      simp only [List.mem_cons, List.mem_singleton, List.not_mem_nil, or_false] at he
      rcases he with rfl | rfl | rfl
      · exact ⟨by decide, demoClassB, rfl, rfl⟩
      · exact ⟨by decide, demoArrayClass, rfl, rfl⟩
      · exact ⟨by decide, demoPrimitive, rfl, rfl⟩)
    rfl).1

/-- Claim C16.  For a thread `t` at `self` whose local-reference chain consists of the
batches `ls`, `JavaThread::tracer` returns (with a budget above the chain length), in
this order: the root of the pending-exception slot if and only if a pending exception
is set, then the root of the thread-delegate slot (whatever it holds), then the roots
of the slots of the local-reference batches in chain order.  Every report is a root
and their number is (1 if a pending exception is set, else 0) + 1 + the sum of the
batch lengths. -/
theorem JavaThread_tracer_reports (h : Heap) (fuel : Nat) (self : Ptr) (t : JavaThread)
    (ls : List (Ptr × JNILocalReferences))
    (hself : self ≠ 0) (ht : h.threads self = some t)
    (hls : BatchChain h.localRefs JNILocalReferences.prev t.localJNIRefs ls)
    (hlf : ls.length < fuel) :
    JavaThread.tracer h fuel self =
      .ok ((if t.pendingException ≠ 0 then [Report.root (Slot.pendingException self)] else [])
        ++ Report.root (Slot.javaThread self) ::
          batchRoots JNILocalReferences.length Slot.localReferences ls) ∧
    (∀ r ∈ (if t.pendingException ≠ 0 then [Report.root (Slot.pendingException self)]
        else []) ++ Report.root (Slot.javaThread self) ::
          batchRoots JNILocalReferences.length Slot.localReferences ls, r.isEdge = false) ∧
    ((if t.pendingException ≠ 0 then [Report.root (Slot.pendingException self)] else [])
        ++ Report.root (Slot.javaThread self) ::
          batchRoots JNILocalReferences.length Slot.localReferences ls).length =
      (if t.pendingException ≠ 0 then 1 else 0) + 1 + (ls.map fun e => e.2.length).sum := by
  refine ⟨?_, ?_, ?_⟩
  · simp only [JavaThread.tracer, deref_eq_ok hself ht,
      localRefs_of_chain h ls t.localJNIRefs fuel hls hlf, bind_ok, pure_eq_ok, batchRoots]
  · intro r hr
    rcases List.mem_append.mp hr with hr | hr
    · by_cases hp : t.pendingException = 0
      · simp [hp] at hr
      · simp [hp] at hr
        subst hr
        rfl
    · rcases List.mem_cons.mp hr with hr | hr
      · subst hr
        rfl
      · obtain ⟨e, _, i, _, rfl⟩ := (batchRoots_mem _ _ ls r).mp hr
        rfl
  · rw [List.length_append, List.length_cons, batchRoots_length]
    by_cases hp : t.pendingException = 0
    · simp [hp]
      omega
    · simp [hp]
      omega

/-- Witness for C16 on the demo heap: the thread at `200` has no pending exception, a
null thread delegate (still reported) and the local-reference chain `80, 81, 82` with
the lengths 2, 0 and 1. -/
theorem JavaThread_tracer_reports_witness :
    JavaThread.tracer demoHeap 4 200 =
      .ok [Report.root (Slot.javaThread 200), Report.root (Slot.localReferences 80 0),
        Report.root (Slot.localReferences 80 1), Report.root (Slot.localReferences 82 0)] :=
  (JavaThread_tracer_reports demoHeap 4 200 demoThread
    [(80, ⟨2, 81⟩), (81, ⟨0, 82⟩), (82, ⟨1, 0⟩)] (by decide) rfl
    ⟨rfl, by decide, rfl, rfl, by decide, rfl, rfl, by decide, rfl, rfl⟩ (by decide)).1

/-- Claim C17.  For a VM `vm` at `self` (build without `ISOLATE_SHARING` and `SERVICE`)
whose bootstrap loader's tracer returns `boot` and whose chained global-reference
batches are `gs`, `Jnjvm::tracer` returns, after the reports of the inherited
`VirtualMachine::tracer()`, in this order: `boot`; the root of the application loader's
class-loader-object slot if and only if an application loader is set; the roots of
every slot of the embedded global-reference batch and of every chained batch; the root
of the value slot of every entry of the interned-string map, one per entry in map
order. -/
theorem Jnjvm_tracer_reports (h : Heap) (N fuel : Nat) (self : Ptr) (vm : Jnjvm)
    (gs : List (Ptr × JNIGlobalReferences)) (boot : List Report)
    (hself : self ≠ 0) (hvm : h.vms self = some vm)
    (hboot : JnjvmBootstrapLoader.tracer h N fuel vm.bootstrapLoader = .ok boot)
    (hgs : BatchChain h.globalRefs JNIGlobalReferences.next vm.globalRefs.next gs)
    (hgf : gs.length < fuel) :
    Jnjvm.tracer h N fuel self =
      .ok (vm.vmTracer ++ boot ++
        (if vm.appClassLoader ≠ 0 then [Report.root (Slot.javaLoader vm.appClassLoader)]
          else []) ++
        ((List.range vm.globalRefs.length).map fun i =>
          Report.root (Slot.vmGlobalReferences self i)) ++
        batchRoots JNIGlobalReferences.length Slot.globalReferences gs ++
        (vm.hashStr.map fun e => Report.root (Slot.hashStr self e.1))) ∧
    (vm.hashStr.map fun e => Report.root (Slot.hashStr self e.1)).length =
      vm.hashStr.length := by
  have happ : Jnjvm.tracer.appLoader vm =
      .ok (if vm.appClassLoader ≠ 0 then [Report.root (Slot.javaLoader vm.appClassLoader)]
        else []) := by
    by_cases ha : vm.appClassLoader = 0
    · simp [Jnjvm.tracer.appLoader, ha]
    · simp [Jnjvm.tracer.appLoader, ha, getJavaClassLoaderPtr_eq_ok ha]
  refine ⟨?_, by simp⟩
  simp only [Jnjvm.tracer, deref_eq_ok hself hvm, hboot, happ,
    globalRefs_of_chain h gs _ fuel hgs hgf, bind_ok, pure_eq_ok, batchRoots]

/-- Witness for C17 on the demo heap: the VM at `100` with one isolate; its bootstrap
loader `4` returns the first thirteen reports, the application loader `7` is set, the
embedded global-reference batch has two slots and is followed by the batch `70`, and
the interned-string map has the keys 5 and 9. -/
theorem Jnjvm_tracer_reports_witness :
    Jnjvm.tracer demoHeap 1 3 100 =
      .ok ([] ++
        [Report.root (Slot.javaLoader 4), Report.root (Slot.javaLoader 4),
          Report.root (Slot.javaLoader 5), Report.root (Slot.javaLoader 5),
          Report.root (Slot.javaLoader 7), Report.root (Slot.bytes 23),
          Report.root (Slot.objectField 30 8), Report.root (Slot.objectField 30 16),
          Report.root (Slot.strings 60 0), Report.root (Slot.strings 60 1),
          Report.root (Slot.strings 61 0), Report.root (Slot.javaLoader 4),
          Report.root (Slot.delegatee 27 0)] ++
        [Report.root (Slot.javaLoader 7)] ++
        [Report.root (Slot.vmGlobalReferences 100 0),
          Report.root (Slot.vmGlobalReferences 100 1)] ++
        [Report.root (Slot.globalReferences 70 0)] ++
        [Report.root (Slot.hashStr 100 5), Report.root (Slot.hashStr 100 9)]) :=
  (Jnjvm_tracer_reports demoHeap 1 3 100 demoVM [(70, ⟨1, 0⟩)]
    [Report.root (Slot.javaLoader 4), Report.root (Slot.javaLoader 4),
      Report.root (Slot.javaLoader 5), Report.root (Slot.javaLoader 5),
      Report.root (Slot.javaLoader 7), Report.root (Slot.bytes 23),
      Report.root (Slot.objectField 30 8), Report.root (Slot.objectField 30 16),
      Report.root (Slot.strings 60 0), Report.root (Slot.strings 60 1),
      Report.root (Slot.strings 61 0), Report.root (Slot.javaLoader 4),
      Report.root (Slot.delegatee 27 0)]
    (by decide) rfl rfl ⟨rfl, by decide, rfl, rfl⟩ (by decide)).1

/-! ## Object header, termination, rounding -/

/-- Claim C18.  For every object `o` and dispatch tables `t`, `t'`: reading the dispatch
table after `setVirtualTable(t)` returns `t`, also when the read is repeated; after
`setVirtualTable(t)` and then `setVirtualTable(t')` the read returns `t'`; and
`setVirtualTable` changes only word 0 of the object, so every other word, the `header`
word included, is unchanged. -/
theorem gcRoot_virtualTable_roundtrip (o : gcRoot) (t t' : Ptr) :
    (o.setVirtualTable t).getVirtualTable = t ∧
    ((o.setVirtualTable t).getVirtualTable, (o.setVirtualTable t).getVirtualTable) = (t, t) ∧
    ((o.setVirtualTable t).setVirtualTable t').getVirtualTable = t' ∧
    (∀ i, i ≠ 0 → (o.setVirtualTable t).words i = o.words i) ∧
    (o.setVirtualTable t).header = o.header := by
  refine ⟨rfl, rfl, rfl, ?_, rfl⟩
  intro i hi
  simp [gcRoot.setVirtualTable, hi]

/-- Claim C19.  Let the super chain of the concrete class `c` of the regular object `obj`
be `c :: cs`, ending at the class without super, so that `d = cs.length` is the number
of proper ancestors.  The loop condition of `RegularObjectTracer` is evaluated exactly
`d + 1` times, that is, the loop body runs exactly `d` times: with a budget of at least
`d + 1` condition evaluations the tracer returns, its log being the loader root
followed by one block of field reports for each of the `d` levels below the root, and
with any smaller budget the budget runs out.  With no budget does the tracer
dereference a null or unmapped class or fail its assertion. -/
theorem RegularObjectTracer_terminates (h : Heap) (obj : Ptr) (o : JavaObject)
    (c : CommonClass) (cs : List CommonClass)
    (hobj : obj ≠ 0) (ho : h.objects obj = some o)
    (hchain : SuperChain h o.getClass (c :: cs))
    (hclass : c.isClass = true) (hloader : c.classLoader ≠ 0) :
    (∀ fuel, cs.length + 1 ≤ fuel →
      RegularObjectTracer h fuel obj =
        .ok (Report.root (Slot.javaLoader c.classLoader) ::
          ((c :: cs).dropLast.map (referenceFieldEdges obj)).flatten)) ∧
    ((c :: cs).dropLast.map (referenceFieldEdges obj)).length = cs.length ∧
    (∀ fuel, fuel ≤ cs.length → RegularObjectTracer h fuel obj = .error .fuel) ∧
    (∀ fuel, RegularObjectTracer h fuel obj ≠ .error .deref ∧
      RegularObjectTracer h fuel obj ≠ .error .assertion) := by
  have hp : o.getClass ≠ 0 ∧ h.classes o.getClass = some c := by
    cases cs with
    | nil => exact ⟨hchain.1, hchain.2.1⟩
    | cons c' cs => exact ⟨hchain.1, hchain.2.1⟩
  have hlong : ∀ fuel, cs.length + 1 ≤ fuel →
      RegularObjectTracer h fuel obj =
        .ok (Report.root (Slot.javaLoader c.classLoader) ::
          ((c :: cs).dropLast.map (referenceFieldEdges obj)).flatten) := by
    intro fuel hf
    simp [RegularObjectTracer, deref_eq_ok hobj ho, deref_eq_ok hp.1 hp.2, hclass, hp.1,
      getJavaClassLoaderPtr_eq_ok hloader,
      loop_of_chain h obj cs c o.getClass fuel hchain (by omega), List.flatMap]
  have hshort : ∀ fuel, fuel ≤ cs.length →
      RegularObjectTracer h fuel obj = .error .fuel := by
    intro fuel hf
    simp [RegularObjectTracer, deref_eq_ok hobj ho, deref_eq_ok hp.1 hp.2, hclass, hp.1,
      getJavaClassLoaderPtr_eq_ok hloader,
      loop_short_of_chain h obj cs c o.getClass fuel hchain hf]
  refine ⟨hlong, by simp, hshort, ?_⟩
  intro fuel
  by_cases hf : fuel ≤ cs.length
  · rw [hshort fuel hf]
    exact ⟨by simp, by simp⟩
  · rw [hlong fuel (by omega)]
    exact ⟨by simp, by simp⟩

/-- Witness for C19 on the demo heap: the class `10` of the object at `1` has the two
proper ancestors `11` and `12`; with a budget of 3 the tracer returns. -/
theorem RegularObjectTracer_terminates_witness :
    RegularObjectTracer demoHeap 3 1 =
      .ok (Report.root (Slot.javaLoader 5) ::
        ([demoLeaf, demoMid].map (referenceFieldEdges 1)).flatten) :=
  (RegularObjectTracer_terminates demoHeap 1 demoRegular demoLeaf [demoMid, demoRoot]
    (by decide) rfl
    ⟨by decide, rfl, by decide, by decide, rfl, by decide, by decide, rfl, rfl⟩
    rfl (by decide)).1 3 (by decide)

/-- Claim C20.  For a bound `2 ^ k` that fits in 32 bits (`k ≤ 31`):
if `value ≤ 2^32 - bound`, then `J3Cst::round(value, bound)` is a multiple of the bound,
is at least `value`, and is at most every multiple of the bound that is at least
`value`; `round(0, bound) = 0`; `round(value, bound) = value` when `value` is already a
multiple of the bound; rounding twice is rounding once; and if
`2^32 - bound < value < 2^32` the result wraps to `0`. -/
theorem J3Cst_round_spec (k value : Nat) (hk : k ≤ 31) :
    (value ≤ 2 ^ 32 - 2 ^ k →
      2 ^ k ∣ J3Cst.round value (2 ^ k) ∧ value ≤ J3Cst.round value (2 ^ k) ∧
      ∀ m, 2 ^ k ∣ m → value ≤ m → J3Cst.round value (2 ^ k) ≤ m) ∧
    J3Cst.round 0 (2 ^ k) = 0 ∧
    (value ≤ 2 ^ 32 - 2 ^ k → 2 ^ k ∣ value → J3Cst.round value (2 ^ k) = value) ∧
    (value ≤ 2 ^ 32 - 2 ^ k →
      J3Cst.round (J3Cst.round value (2 ^ k)) (2 ^ k) = J3Cst.round value (2 ^ k)) ∧
    (2 ^ 32 - 2 ^ k < value → value < 2 ^ 32 → J3Cst.round value (2 ^ k) = 0) := by
  have hb : 0 < 2 ^ k := Nat.two_pow_pos k
  have hle : 2 ^ k ≤ 2 ^ 31 := Nat.pow_le_pow_right (by decide) hk
  have hlt : ∀ v, v ≤ 2 ^ 32 - 2 ^ k → v < 2 ^ 32 := by
    intro v hv
    omega
  have hfix : ∀ v, v ≤ 2 ^ 32 - 2 ^ k → 2 ^ k ∣ v → J3Cst.round v (2 ^ k) = v := by
    intro v hv hdvd
    obtain ⟨_, hge, _, hleast⟩ := (round_core k v hk (hlt v hv)).1 hv
    exact Nat.le_antisymm (hleast v hdvd (Nat.le_refl v)) hge
  refine ⟨?_, ?_, hfix value, ?_, ?_⟩
  · intro hv
    obtain ⟨hdvd, hge, _, hleast⟩ := (round_core k value hk (hlt value hv)).1 hv
    exact ⟨hdvd, hge, hleast⟩
  · exact hfix 0 (Nat.zero_le _) (Nat.dvd_zero _)
  · intro hv
    obtain ⟨hdvd, _, hbound, _⟩ := (round_core k value hk (hlt value hv)).1 hv
    exact hfix _ hbound hdvd
  · intro hgt hv
    exact (round_core k value hk hv).2 hgt

/-- Witness for C20: with the bound `8 = 2 ^ 3` the value 9 is rounded up to a multiple
of 8 that is at least 9 and at most every such multiple, that is, to 16. -/
theorem J3Cst_round_spec_witness :
    2 ^ 3 ∣ J3Cst.round 9 (2 ^ 3) ∧ 9 ≤ J3Cst.round 9 (2 ^ 3) ∧
      ∀ m, 2 ^ 3 ∣ m → 9 ≤ m → J3Cst.round 9 (2 ^ 3) ≤ m :=
  (J3Cst_round_spec 3 9 (by decide)).1 (by decide)

end J3
